import Mathlib

/-!
Verification of the semantic-reconciliation core of the
terraform-provider-signoz repository against its specification.

The embedding models Go's `encoding/json` data (`interface \x7b\x7d` trees
produced by `json.Unmarshal`) as the mutual inductive `GoVal`/`GoArr`/`GoObj`.
Go maps (`map[string]interface\x7b\x7d`) are unordered; we represent them
canonically as key-sorted association lists (`GoObj`), which is faithful
because Go map equality ignores order and `json.Marshal` serializes map keys
in sorted (byte-lexicographic) order.  JSON numbers unmarshal to Go `float64`;
the claims only involve integral numbers, so `GoVal.num` carries the integral
value.  Crucially, Go distinguishes the *dynamic type* of an interface value:
a `float64` zero is not `==` to an untyped `0` constant (typed `int`).  The
constructor `GoVal.intV` models a Go `int` stored in an interface (it only
arises from `normalizeCondition`, which assigns the untyped constant `0`),
while `GoVal.num` models a `float64` from `json.Unmarshal`.
-/

mutual

inductive GoVal where
  | null : GoVal
  | boolV (b : Bool) : GoVal
  | num (n : Int) : GoVal
  | intV (n : Int) : GoVal
  | str (s : String) : GoVal
  | arr (xs : GoArr) : GoVal
  | obj (kvs : GoObj) : GoVal

inductive GoArr where
  | nil : GoArr
  | cons (hd : GoVal) (tl : GoArr) : GoArr

inductive GoObj where
  | nil : GoObj
  | cons (k : String) (hd : GoVal) (tl : GoObj) : GoObj

end

/- Size measures used for parser-fuel arithmetic. -/
mutual

def sizeW : GoVal → Nat
  | .null => 1
  | .boolV _ => 1
  | .num _ => 1
  | .intV _ => 1
  | .str _ => 1
  | .arr xs => 1 + sizeA xs
  | .obj kvs => 1 + sizeO kvs
termination_by structural v => v

def sizeA : GoArr → Nat
  | .nil => 0
  | .cons x t => 1 + sizeW x + sizeA t
termination_by structural xs => xs

def sizeO : GoObj → Nat
  | .nil => 0
  | .cons _ v t => 1 + sizeW v + sizeO t
termination_by structural kvs => kvs

end

/-- Decimal digits of a natural number, most significant first (fuel-indexed
so that the definition reduces by the kernel; `natChars` supplies ample fuel). -/
def natCharsAux : Nat → Nat → List Char
  | 0, _ => []
  | Nat.succ fuel, n =>
    if n < 10 then [Char.ofNat (48 + n)]
    else natCharsAux fuel (n / 10) ++ [Char.ofNat (48 + n % 10)]

def natChars (n : Nat) : List Char := natCharsAux (n + 1) n

/-- Decimal rendering of an integer (Go prints integral float64 and int alike). -/
def intChars (n : Int) : List Char :=
  if n < 0 then '-' :: natChars n.natAbs else natChars n.natAbs

/-- Lowercase hex digit. -/
def hexDigit (n : Nat) : Char :=
  if n < 10 then Char.ofNat (48 + n) else Char.ofNat (87 + n)

/-- A `\uXXXX` escape as emitted by Go's JSON encoder (lowercase hex). -/
def uEsc (n : Nat) : List Char :=
  ['\\', 'u', hexDigit (n / 4096 % 16), hexDigit (n / 256 % 16),
   hexDigit (n / 16 % 16), hexDigit (n % 16)]

/-- Escaping of one character inside a JSON string, following Go's
`encoding/json` encoder: `"` and `\` get two-character escapes, `\n`, `\r`,
`\t` get their short escapes, other control characters become `\u00XX`, and
the HTML-unsafe characters and the line separators U+2028/U+2029 become
`\uXXXX`; everything else passes through. -/
def escChar (c : Char) : List Char :=
  if c = '"' then ['\\', '"']
  else if c = '\\' then ['\\', '\\']
  else if c = '\n' then ['\\', 'n']
  else if c = '\r' then ['\\', 'r']
  else if c = '\t' then ['\\', 't']
  else if c.toNat < 32 then uEsc c.toNat
  else if c = '<' then uEsc c.toNat
  else if c = '>' then uEsc c.toNat
  else if c = '&' then uEsc c.toNat
  else if c.toNat = 8232 then uEsc c.toNat
  else if c.toNat = 8233 then uEsc c.toNat
  else [c]

/-- A JSON string literal with Go escaping. -/
def quoteStr (s : String) : List Char :=
  '"' :: (s.data.flatMap escChar) ++ ['"']

/- `json.Marshal`: compact serialization; object keys are already sorted in
the canonical `GoObj` representation, matching Go's sorted-key map encoding. -/
mutual

def printVal : GoVal → List Char
  | .null => ['n', 'u', 'l', 'l']
  | .boolV true => ['t', 'r', 'u', 'e']
  | .boolV false => ['f', 'a', 'l', 's', 'e']
  | .num n => intChars n
  | .intV n => intChars n
  | .str s => quoteStr s
  | .arr .nil => ['[', ']']
  | .arr (.cons x t) => '[' :: (printVal x ++ printArrTail t) ++ [']']
  | .obj .nil => ['\x7b', '\x7d']
  | .obj (.cons k v t) =>
      '\x7b' :: (quoteStr k ++ ':' :: printVal v ++ printObjTail t) ++ ['\x7d']
termination_by structural v => v

def printArrTail : GoArr → List Char
  | .nil => []
  | .cons x t => ',' :: printVal x ++ printArrTail t
termination_by structural xs => xs

def printObjTail : GoObj → List Char
  | .nil => []
  | .cons k v t => ',' :: quoteStr k ++ ':' :: printVal v ++ printObjTail t
termination_by structural kvs => kvs

end

def goMarshal (v : GoVal) : String := ⟨printVal v⟩

/-- `isDefaultField` from `alert.go`: checks if a field is an API-added
default that should be ignored.  Faithful to the Go `switch key` including
the dynamic-type semantics of the `==` comparisons: `value == false/true`
matches a `bool`, `value == nil` matches JSON null, `value == ""` matches a
string, and `value == 0` compares against an untyped `0` of type `int`, which
never matches the `float64` a JSON number unmarshals to (`GoVal.num`), only a
Go `int` (`GoVal.intV`).  The `groupBy` case type-asserts a slice and tests
emptiness. -/
def isDefaultField (key : String) (value : GoVal) : Bool :=
  if key = "groupBy" then
    match value with
    | .arr .nil => true
    | .arr _ => false
    | _ => false
  else if key = "IsAnomaly" then
    match value with
    | .boolV false => true
    | _ => false
  else if key = "QueriesUsedInFormula" then
    match value with
    | .null => true
    | _ => false
  else if key = "absentFor" then
    match value with
    | .intV 0 => true
    | _ => false
  else if key = "alertOnAbsent" then
    match value with
    | .boolV false => true
    | _ => false
  else if key = "hidden" then
    match value with
    | .boolV true => true
    | _ => false
  else if key = "reduceTo" ∨ key = "spaceAggregation" ∨ key = "timeAggregation" then
    match value with
    | .str "" => true
    | _ => false
  else false

/- `removeDefaultFields` from `alert.go`: recursively removes API-added
default fields.  At each map it skips pairs matching `isDefaultField` and
recurses into the kept values; arrays are mapped element-wise; scalars pass
through.  (Go iterates the map in arbitrary order and rebuilds a fresh map;
on the canonical sorted representation this is a filter-and-map.) -/
mutual

def removeDefaultFields : GoVal → GoVal
  | .obj kvs => .obj (rdfObj kvs)
  | .arr xs => .arr (rdfArr xs)
  | .null => .null
  | .boolV b => .boolV b
  | .num n => .num n
  | .intV n => .intV n
  | .str s => .str s
termination_by structural v => v

def rdfArr : GoArr → GoArr
  | .nil => .nil
  | .cons x t => .cons (removeDefaultFields x) (rdfArr t)
termination_by structural xs => xs

def rdfObj : GoObj → GoObj
  | .nil => .nil
  | .cons k v t =>
      if isDefaultField k v then rdfObj t
      else .cons k (removeDefaultFields v) (rdfObj t)
termination_by structural kvs => kvs

end

/-- Whitespace characters `encoding/json` skips between tokens. -/
def isWs (c : Char) : Bool :=
  c = ' ' || c = '\t' || c = '\n' || c = '\r'

def skipWs (cs : List Char) : List Char := cs.dropWhile isWs

def isDig (c : Char) : Bool := 48 ≤ c.toNat && c.toNat ≤ 57

def digitVal (c : Char) : Nat := c.toNat - 48

def digitsToNat (ds : List Char) : Nat :=
  ds.foldl (fun a c => 10 * a + digitVal c) 0

/-- Value of one hex digit (both cases), for `\uXXXX` escapes. -/
def hexVal (c : Char) : Option Nat :=
  if 48 ≤ c.toNat && c.toNat ≤ 57 then some (c.toNat - 48)
  else if 97 ≤ c.toNat && c.toNat ≤ 102 then some (c.toNat - 87)
  else if 65 ≤ c.toNat && c.toNat ≤ 70 then some (c.toNat - 55)
  else none

/-- Body of a JSON string literal after the opening quote: unescapes the
standard JSON escapes (and `\uXXXX` outside the surrogate range), rejects raw
control characters, and stops at the closing quote.  Mirrors `encoding/json`
string decoding on the fragment without surrogate pairs. -/
def unescCode (e : Char) : Option Char :=
  if e = 'n' then some '\n'
  else if e = 't' then some '\t'
  else if e = 'r' then some '\r'
  else if e = 'b' then some '\x08'
  else if e = 'f' then some '\x0c'
  else if e = '/' then some '/'
  else if e = '"' then some '"'
  else if e = '\\' then some '\\'
  else none

def parseStrBody : List Char → List Char → Option (String × List Char)
  | [], _ => none
  | c :: rest, acc =>
    if c = '"' then some (⟨acc⟩, rest)
    else if c = '\\' then
      match rest with
      | [] => none
      | e :: r2 =>
        if e = 'u' then
          match r2 with
          | h1 :: h2 :: h3 :: h4 :: r =>
            match hexVal h1, hexVal h2, hexVal h3, hexVal h4 with
            | some a, some b, some c3, some d =>
              let n := 4096 * a + 256 * b + 16 * c3 + d
              if n < 55296 || 57343 < n then parseStrBody r (acc ++ [Char.ofNat n])
              else none
            | _, _, _, _ => none
          | _ => none
        else
          match unescCode e with
          | some u => parseStrBody r2 (acc ++ [u])
          | none => none
    else if c.toNat < 32 then none
    else parseStrBody rest (acc ++ [c])
termination_by structural cs _ => cs

/-- A JSON number without fraction or exponent (the embedding's numeric
fragment): optional leading zero rule as in the JSON grammar; a following
`.`/`e`/`E` (which Go would accept as a float) is rejected. -/
def parseNatNum : List Char → Option (Nat × List Char)
  | [] => none
  | c :: rest =>
    if c = '0' then
      match rest with
      | [] => some (0, [])
      | c2 :: _ =>
        if isDig c2 || c2 = '.' || c2 = 'e' || c2 = 'E' then none
        else some (0, rest)
    else if isDig c then
      let ds := (c :: rest).takeWhile isDig
      let rem := (c :: rest).dropWhile isDig
      match rem with
      | [] => some (digitsToNat ds, [])
      | r0 :: _ =>
        if r0 = '.' || r0 = 'e' || r0 = 'E' then none
        else some (digitsToNat ds, rem)
    else none

/-- Lexicographic order on character lists by code point; on valid UTF-8 this
coincides with Go's byte-wise string `<` (used by `sort.Strings` for
`json.Marshal`'s key ordering). -/
def charListLt : List Char → List Char → Bool
  | [], [] => false
  | [], _ :: _ => true
  | _ :: _, [] => false
  | c :: cs, d :: ds =>
    if c.toNat < d.toNat then true
    else if d.toNat < c.toNat then false
    else charListLt cs ds

def strLt (a b : String) : Bool := charListLt a.data b.data

/-- Insertion into the canonical sorted association-list representation of a
Go map; an existing key's value is replaced (Go: a later duplicate object key
overwrites the earlier one in `json.Unmarshal`). -/
def GoObj.insertKV (k : String) (v : GoVal) : GoObj → GoObj
  | .nil => .cons k v .nil
  | .cons k' v' t =>
    if strLt k k' then .cons k v (.cons k' v' t)
    else if k = k' then .cons k v t
    else .cons k' v' (GoObj.insertKV k v t)

/-- Build the canonical map from member pairs in textual order (later
duplicates win, as in Go). -/
def objFromPairsAux : GoObj → GoObj → GoObj
  | acc, .nil => acc
  | acc, .cons k v t => objFromPairsAux (acc.insertKV k v) t

def objFromPairs (ps : GoObj) : GoObj := objFromPairsAux .nil ps

/-- Head test for one-character tokens. -/
def headIs (c : Char) : List Char → Bool
  | d :: _ => d = c
  | [] => false

/- `json.Unmarshal` into `interface` for one JSON value, fuel-indexed.
Objects become canonical sorted maps, arrays keep element order, numbers are
`float64` (`GoVal.num`), and literals map to `null`/`bool`. -/
mutual

def parseVal : Nat → List Char → Option (GoVal × List Char)
  | 0, _ => none
  | Nat.succ fuel, cs =>
    match skipWs cs with
    | [] => none
    | c :: rest =>
      if c = 'n' then
        match rest with
        | 'u' :: 'l' :: 'l' :: r => some (.null, r)
        | _ => none
      else if c = 't' then
        match rest with
        | 'r' :: 'u' :: 'e' :: r => some (.boolV true, r)
        | _ => none
      else if c = 'f' then
        match rest with
        | 'a' :: 'l' :: 's' :: 'e' :: r => some (.boolV false, r)
        | _ => none
      else if c = '"' then
        match parseStrBody rest [] with
        | some (s, r) => some (.str s, r)
        | none => none
      else if c = '\x7b' then
        let cs1 := skipWs rest
        if headIs '\x7d' cs1 then some (.obj .nil, cs1.tail)
        else
          match parseMembers fuel cs1 with
          | some (ps, r) => some (.obj (objFromPairs ps), r)
          | none => none
      else if c = '[' then
        let cs1 := skipWs rest
        if headIs ']' cs1 then some (.arr .nil, cs1.tail)
        else
          match parseElems fuel cs1 with
          | some (xs, r) => some (.arr xs, r)
          | none => none
      else if c = '-' then
        match parseNatNum rest with
        | some (n, r) => some (.num (-(n : Int)), r)
        | none => none
      else if isDig c then
        match parseNatNum (c :: rest) with
        | some (n, r) => some (.num (n : Int), r)
        | none => none
      else none
termination_by structural fuel _ => fuel

def parseElems : Nat → List Char → Option (GoArr × List Char)
  | 0, _ => none
  | Nat.succ fuel, cs =>
    match parseVal fuel cs with
    | none => none
    | some (v, rest) =>
      let cs2 := skipWs rest
      if headIs ',' cs2 then
        match parseElems fuel cs2.tail with
        | some (xs, r2) => some (.cons v xs, r2)
        | none => none
      else if headIs ']' cs2 then some (.cons v .nil, cs2.tail)
      else none
termination_by structural fuel _ => fuel

def parseMembers : Nat → List Char → Option (GoObj × List Char)
  | 0, _ => none
  | Nat.succ fuel, cs =>
    let cs0 := skipWs cs
    if headIs '"' cs0 then
      match parseStrBody cs0.tail [] with
      | none => none
      | some (k, rest1) =>
        let cs1 := skipWs rest1
        if headIs ':' cs1 then
          match parseVal fuel cs1.tail with
          | none => none
          | some (v, rest3) =>
            let cs2 := skipWs rest3
            if headIs ',' cs2 then
              match parseMembers fuel cs2.tail with
              | some (ps, r2) => some (.cons k v ps, r2)
              | none => none
            else if headIs '\x7d' cs2 then some (.cons k v .nil, cs2.tail)
            else none
        else none
    else none
termination_by structural fuel _ => fuel

end

/-- `json.Unmarshal([]byte(s), &data)` for a whole input: one value, then
only whitespace may remain.  The fuel `2*length+2` dominates any run the
parser can make on the input. -/
def jsonParse (s : String) : Option GoVal :=
  match parseVal (2 * s.length + 2) s.data with
  | some (v, rest) => if (skipWs rest).isEmpty then some v else none
  | none => none

/-- `areJSONsSemanticallyEqual` from `alert.go`: unmarshal both inputs
(returning false on either parse failure), strip default fields from both,
marshal back, and compare the serialized strings for exact equality.
(Go's `json.Marshal` cannot fail on data produced by `json.Unmarshal`, so its
error branches are dead; the function is total and never panics.) -/
def areJSONsSemanticallyEqual (json1 json2 : String) : Bool :=
  match jsonParse json1 with
  | none => false
  | some data1 =>
    match jsonParse json2 with
    | none => false
    | some data2 =>
      let normalized1Str := goMarshal (removeDefaultFields data1)
      let normalized2Str := goMarshal (removeDefaultFields data2)
      normalized1Str == normalized2Str

/-- `normalizeJSON` from `alert.go`: unmarshal, strip default fields,
marshal back with consistent formatting. -/
def normalizeJSON (jsonStr : String) : Option String :=
  match jsonParse jsonStr with
  | none => none
  | some data => some (goMarshal (removeDefaultFields data))

/-- Go map lookup `m[k]` for `map[string]interface\x7b\x7d` (missing key
gives the nil interface, which we surface as `none`). -/
def GoObj.find? (k : String) : GoObj → Option GoVal
  | .nil => none
  | .cons k' v t => if k = k' then some v else GoObj.find? k t

/-- Go's `m[k] == nil` for an interface-valued map: true when the key is
missing or holds JSON null. -/
def GoObj.isNilAt (m : GoObj) (k : String) : Bool :=
  match m.find? k with
  | none => true
  | some .null => true
  | some _ => false

/-- The per-query body of the `builderQueries` loop in `normalizeCondition`
(`model/alert.go`): injects the API defaults into one query map.  Each Go
statement `if queryMap[k] == nil { queryMap[k] = v }` is one
`injectDefault` step; `hidden` is injected only for the query named "A"; the
empty-string aggregation fields only for the query named "F1" (the Go guard
`queryName == "A" && queryMap["hidden"] == nil` short-circuits, which the
nested if reproduces).  Assignments mutate the query map in place; here they
are sequential canonical-map insertions. -/
def injectDefault (k : String) (v : GoVal) (m : GoObj) : GoObj :=
  if m.isNilAt k then m.insertKV k v else m

def normalizeQuery (queryName : String) (queryMap : GoObj) : GoObj :=
  let q3 := injectDefault ("groupBy") (.arr .nil)
    (injectDefault ("QueriesUsedInFormula") .null
      (injectDefault ("IsAnomaly") (.boolV false) queryMap))
  let q4 := if queryName = "A" then injectDefault ("hidden") (.boolV true) q3 else q3
  if queryName = "F1" then
    injectDefault ("timeAggregation") (.str "")
      (injectDefault ("spaceAggregation") (.str "")
        (injectDefault ("reduceTo") (.str "") q4))
  else q4

/-- Apply `normalizeQuery` to every map-valued entry of `builderQueries`
(non-map entries are left untouched by the Go type assertion). -/
def normalizeQueries : GoObj → GoObj
  | .nil => .nil
  | .cons name q t =>
    match q with
    | .obj qm => .cons name (.obj (normalizeQuery name qm)) (normalizeQueries t)
    | other => .cons name other (normalizeQueries t)

/-- `normalizeCondition` from `model/alert.go`: adds the default fields the
API expects.  Inside `compositeQuery.builderQueries` each query map gets its
(partly position-dependent) defaults; at the root, `absentFor` is assigned the
untyped constant `0` — a Go `int`, hence `GoVal.intV` — and `alertOnAbsent`
gets `false`, each only when missing or nil.  Mutation of the nested maps is
modelled by re-inserting the rebuilt sub-maps. -/
def normalizeCondition (condition : GoObj) : GoObj :=
  let c1 :=
    match condition.find? ("compositeQuery") with
    | some (.obj cq) =>
      match cq.find? ("builderQueries") with
      | some (.obj bq) =>
        condition.insertKV ("compositeQuery")
          (.obj (cq.insertKV ("builderQueries") (.obj (normalizeQueries bq))))
      | _ => condition
    | _ => condition
  let c2 := if c1.isNilAt ("absentFor") then c1.insertKV ("absentFor") (.intV 0) else c1
  if c2.isNilAt ("alertOnAbsent") then c2.insertKV ("alertOnAbsent") (.boolV false) else c2

/-- `structure.ExpandJsonFromString`: `json.Unmarshal` into
`map[string]interface\x7b\x7d`, so the top-level value must be an object
(Go also accepts `null`, yielding a nil map). -/
def expandJsonObj (s : String) : Option GoObj :=
  match jsonParse s with
  | some (.obj o) => some o
  | some .null => some .nil
  | _ => none

/-- `Alert.SetCondition` (`model/alert.go`): parse the Terraform condition
string as a JSON object and normalize it to the API format; a parse failure
is returned as an error. -/
def setCondition (tfCondition : String) : Option GoObj :=
  match expandJsonObj tfCondition with
  | none => none
  | some condition => some (normalizeCondition condition)

/-- `Alert.ConditionToTerraform` (`model/alert.go`): strip the API default
fields from the observed condition map and flatten it back to a JSON string
(`structure.FlattenJsonToString` is `json.Marshal`).  Stripping a map always
yields a map, so the fallback branch for a failed type assertion is dead. -/
def conditionToTerraform (condition : GoObj) : String :=
  goMarshal (.obj (rdfObj condition))

/-- A `types.String` of the Terraform plugin framework: null, unknown, or a
known value.  `ValueString` returns "" for null/unknown. -/
inductive TFString where
  | null : TFString
  | unknown : TFString
  | val (s : String) : TFString
deriving DecidableEq

def TFString.valueString : TFString → String
  | .val s => s
  | _ => ""

def TFString.isNull : TFString → Bool
  | .null => true
  | _ => false

def TFString.isUnknown : TFString → Bool
  | .unknown => true
  | _ => false

/-- A `types.Bool`; `ValueBool` returns false for null/unknown. -/
inductive TFBool where
  | null : TFBool
  | unknown : TFBool
  | val (b : Bool) : TFBool
deriving DecidableEq

def TFBool.valueBool : TFBool → Bool
  | .val b => b
  | _ => false

/-- One character under Go's `%q` (`strconv.Quote`) as the plugin framework's
`StringValue.String()` renders values: quote and backslash get backslash
escapes, the named control characters get short escapes, other ASCII control
characters get `\xHH`; printable characters pass through (non-ASCII
printables are left as-is in this model). -/
def goQuoteChar (c : Char) : List Char :=
  if c = '"' then ['\\', '"']
  else if c = '\\' then ['\\', '\\']
  else if c = '\n' then ['\\', 'n']
  else if c = '\t' then ['\\', 't']
  else if c = '\r' then ['\\', 'r']
  else if c = '\x07' then ['\\', 'a']
  else if c = '\x08' then ['\\', 'b']
  else if c = '\x0c' then ['\\', 'f']
  else if c = '\x0b' then ['\\', 'v']
  else if c.toNat < 32 || c.toNat = 127 then
    ['\\', 'x', hexDigit (c.toNat / 16), hexDigit (c.toNat % 16)]
  else [c]

/-- `types.String.String()`: the `%q`-quoted form of a known value. -/
def goQuote (s : String) : String :=
  ⟨'"' :: s.data.flatMap goQuoteChar ++ ['"']⟩

/-- `strings.Trim(s, "\"")`: remove all leading and trailing quote
characters. -/
def trimQuotes (s : String) : String :=
  ⟨((s.data.dropWhile (fun c => c = '"')).reverse.dropWhile (fun c => c = '"')).reverse⟩

/-- Insertion into the canonical sorted representation of a Go
`map[string]string`. -/
def insertStrKV (k v : String) : List (String × String) → List (String × String)
  | [] => [(k, v)]
  | (k', v') :: t =>
    if strLt k k' then (k, v) :: (k', v') :: t
    else if k = k' then (k, v) :: t
    else (k', v') :: insertStrKV k v t

/-- Modelled from the spec: the `attr` package of this repository (not under
`src/`) declares the schema attribute-name constants; the alert schema text
("Severity is a required label") and the reconciliation code fix the severity
label key to "severity". -/
def attrSeverity : String := "severity"

/-- `AlertTerraformLabel = "managedBy:terraform"` split at ":" (both halves
are already space-free, so the `strings.TrimSpace` calls are identity). -/
def terraformLabelKey : String := "managedBy"

def terraformLabelValue : String := "terraform"

/-- `Alert.SetLabels` (`model/alert.go`): build the labels map from the
Terraform map elements (each value rendered with `String()` and stripped of
quotes), then force the `managedBy=terraform` bookkeeping label, then the
severity label when a non-empty severity is configured.  The Terraform map is
modelled by its known elements in canonical (sorted, duplicate-free) order;
Go's map iteration order does not affect the resulting map. -/
def setLabels (tfLabels : List (String × String)) (tfSeverity : TFString) :
    List (String × String) :=
  let labels := tfLabels.foldl (fun m kv => insertStrKV kv.1 (trimQuotes (goQuote kv.2)) m) []
  let labels := insertStrKV terraformLabelKey terraformLabelValue labels
  if tfSeverity.valueString ≠ "" then
    insertStrKV attrSeverity tfSeverity.valueString labels
  else labels

/-- `Alert.LabelsToTerraform` (`model/alert.go`): surface every label except
the severity key and the `managedBy` bookkeeping key as Terraform map
elements. -/
def labelsToTerraform (labels : List (String × String)) : List (String × String) :=
  labels.filter (fun kv => !(kv.1 == attrSeverity || kv.1 == terraformLabelKey))

/-- Go `map[string]string` lookup with the zero value "" for a missing
key (used for `alert.Labels[attr.Severity]` on read). -/
def lookupStr (labels : List (String × String)) (k : String) : String :=
  match labels.find? (fun kv => kv.1 = k) with
  | some kv => kv.2
  | none => ""

/-- `alertResourceModel` (`provider/resource/alert.go`): the Terraform schema
record for the alert resource. -/
structure AlertResourceModel where
  id : TFString
  alert : TFString
  alertType : TFString
  broadcastToAll : TFBool
  condition : TFString
  description : TFString
  disabled : TFBool
  evalWindow : TFString
  frequency : TFString
  labels : List (String × String)
  preferredChannels : List String
  ruleType : TFString
  severity : TFString
  source : TFString
  lifecycleState : TFString
  summary : TFString
  version : TFString
  createAt : TFString
  createBy : TFString
  updateAt : TFString
  updateBy : TFString
deriving DecidableEq

/-- The observed `model.Alert` as returned by the SigNoz API client (its
JSON-decoded fields; the condition is the unmarshalled
`map[string]interface\x7b\x7d`, labels the decoded `map[string]string` in
canonical order). -/
structure AlertObs where
  id : String
  alert : String
  alertType : String
  annotDescription : String
  annotSummary : String
  broadcastToAll : Bool
  condition : GoObj
  disabled : Bool
  evalWindow : String
  frequency : String
  labels : List (String × String)
  preferredChannels : List String
  ruleType : String
  source : String
  lifecycleState : String
  version : String
  createAt : String
  createBy : String
  updateAt : String
  updateBy : String

/-- `alertResource.Update` (`provider/resource/alert.go`), the state it
persists on success: the update payload is built from the plan (aborting when
`SetCondition` rejects the condition string); after the remote update, the
plan's condition is replaced by the state's condition exactly when the two
are semantically equal JSON (and the state value is neither null nor
unknown), and the server-managed fields (id, timestamps, audit fields,
source, lifecycle state) are carried over from the current state. -/
def alertUpdateNext (plan state : AlertResourceModel) : Option AlertResourceModel :=
  match setCondition plan.condition.valueString with
  | none => none
  | some _ =>
    let plan1 :=
      if !state.condition.isNull && !state.condition.isUnknown then
        if areJSONsSemanticallyEqual plan.condition.valueString state.condition.valueString then
          { plan with condition := state.condition }
        else plan
      else plan
    some { plan1 with
            id := state.id
            createAt := state.createAt
            createBy := state.createBy
            updateAt := state.updateAt
            updateBy := state.updateBy
            source := state.source
            lifecycleState := state.lifecycleState }

/-- `alertResource.Read` (`provider/resource/alert.go`): every field of the
next state is overwritten from the freshly observed alert; in particular the
condition is set to `ConditionToTerraform` of the *observed* condition (the
canonicalized server value), not kept from the previous state. -/
def alertReadNext (state : AlertResourceModel) (alert : AlertObs) : AlertResourceModel :=
  { state with
      alert := .val alert.alert
      alertType := .val alert.alertType
      broadcastToAll := .val alert.broadcastToAll
      description := .val alert.annotDescription
      disabled := .val alert.disabled
      evalWindow := .val alert.evalWindow
      frequency := .val alert.frequency
      ruleType := .val alert.ruleType
      severity := .val (lookupStr alert.labels attrSeverity)
      source := .val alert.source
      lifecycleState := .val alert.lifecycleState
      summary := .val alert.annotSummary
      version := .val alert.version
      createAt := .val alert.createAt
      createBy := .val alert.createBy
      updateAt := .val alert.updateAt
      updateBy := .val alert.updateBy
      condition := .val (conditionToTerraform alert.condition)
      labels := labelsToTerraform alert.labels
      preferredChannels := alert.preferredChannels }

/-- `dashboardResourceModel` (`provider/resource/dashboard.go`). -/
structure DashboardResourceModel where
  collapsableRowsMigrated : TFBool
  createdAt : TFString
  createdBy : TFString
  description : TFString
  id : TFString
  layout : TFString
  name : TFString
  panelMap : TFString
  source : TFString
  tags : List String
  title : TFString
  updatedAt : TFString
  updatedBy : TFString
  uploadedGrafana : TFBool
  variablesStr : TFString
  version : TFString
  widgets : TFString
deriving DecidableEq

/-- The observed dashboard from the API client: the wrapper's metadata plus
the scalar `Data` fields the Read handler consumes. -/
structure DashboardObs where
  id : String
  createdAt : String
  createdBy : String
  updatedAt : String
  updatedBy : String
  collapsableRowsMigrated : Bool
  description : String
  name : String
  source : String
  title : String
  uploadedGrafana : Bool
  version : String
  tags : List String

/-- `dashboardResource.Read` (`provider/resource/dashboard.go`): scalar and
computed fields are overwritten from the observed dashboard, while the
structured JSON fields — widgets, layout, panel map, variables — keep their
previous state values (drift masking); tags come from the observed data. -/
def dashboardReadNext (state : DashboardResourceModel) (obs : DashboardObs) :
    DashboardResourceModel :=
  { state with
      collapsableRowsMigrated := .val obs.collapsableRowsMigrated
      createdAt := .val obs.createdAt
      createdBy := .val obs.createdBy
      description := .val obs.description
      id := .val obs.id
      name := .val obs.name
      source := .val obs.source
      title := .val obs.title
      updatedAt := .val obs.updatedAt
      updatedBy := .val obs.updatedBy
      uploadedGrafana := .val obs.uploadedGrafana
      version := .val obs.version
      widgets := state.widgets
      layout := state.layout
      panelMap := state.panelMap
      variablesStr := state.variablesStr
      tags := obs.tags }

/-- `Dashboard.SetLayout`: `json.Unmarshal` into
`[]map[string]interface\x7b\x7d` — the value must be an array of objects (or
JSON null, which Go decodes into a nil slice). -/
def allObjElems : GoArr → Bool
  | .nil => true
  | .cons (.obj _) t => allObjElems t
  | .cons _ _ => false

def expandJsonArrOfObj (s : String) : Option GoArr :=
  match jsonParse s with
  | some (.arr xs) => if allObjElems xs then some xs else none
  | some .null => some .nil
  | _ => none

/-- `dashboardResource.Update` (`provider/resource/dashboard.go`), the state
it persists on success: the payload setters must accept the plan's structured
strings (layout: array of objects; panel map: "" or an object; variables: an
object — the third-revision `SetVariables` has no empty-string shortcut;
widgets always accepted, hashed); then the plan is persisted with the
server-managed fields carried over from the current state. -/
def dashboardUpdateNext (plan state : DashboardResourceModel) :
    Option DashboardResourceModel :=
  match expandJsonArrOfObj plan.layout.valueString with
  | none => none
  | some _ =>
    let panelOk := (plan.panelMap.valueString == "") ||
      (expandJsonObj plan.panelMap.valueString).isSome
    let variablesOk := (expandJsonObj plan.variablesStr.valueString).isSome
    if panelOk && variablesOk then
      some { plan with
              id := state.id
              createdAt := state.createdAt
              createdBy := state.createdBy
              updatedAt := state.updatedAt
              updatedBy := state.updatedBy
              source := state.source }
    else none

/-- UTF-8 bytes of one character (Go `[]byte(s)` views the string's UTF-8
encoding). -/
def charUtf8 (c : Char) : List Nat :=
  let n := c.toNat
  if n < 128 then [n]
  else if n < 2048 then [192 + n / 64, 128 + n % 64]
  else if n < 65536 then [224 + n / 4096, 128 + n / 64 % 64, 128 + n % 64]
  else [240 + n / 262144, 128 + n / 4096 % 64, 128 + n / 64 % 64, 128 + n % 64]

def utf8Bytes (s : String) : List Nat := s.data.flatMap charUtf8

def rotr32 (x n : Nat) : Nat :=
  ((x >>> n) ||| (x <<< (32 - n))) % 4294967296

/-- The SHA-256 round constants (decimal). -/
def sha256K : List Nat :=
  [1116352408, 1899447441, 3049323471, 3921009573, 961987163, 1508970993,
   2453635748, 2870763221, 3624381080, 310598401, 607225278, 1426881987,
   1925078388, 2162078206, 2614888103, 3248222580, 3835390401, 4022224774,
   264347078, 604807628, 770255983, 1249150122, 1555081692, 1996064986,
   2554220882, 2821834349, 2952996808, 3210313671, 3336571891, 3584528711,
   113926993, 338241895, 666307205, 773529912, 1294757372, 1396182291,
   1695183700, 1986661051, 2177026350, 2456956037, 2730485921, 2820302411,
   3259730800, 3345764771, 3516065817, 3600352804, 4094571909, 275423344,
   430227734, 506948616, 659060556, 883997877, 958139571, 1322822218,
   1537002063, 1747873779, 1955562222, 2024104815, 2227730452, 2361852424,
   2428436474, 2756734187, 3204031479, 3329325298]

def sha256H0 : List Nat :=
  [1779033703, 3144134277, 1013904242, 2773480762, 1359893119, 2600822924,
   528734635, 1541459225]

/-- SHA-256 padding: append `0x80`, zero bytes, and the 64-bit big-endian
bit length, to a multiple of 64 bytes. -/
def sha256Pad (msg : List Nat) : List Nat :=
  let l := msg.length
  let k := (119 - l % 64) % 64
  let bits := 8 * l
  msg ++ [128] ++ List.replicate k 0 ++
    [bits / 72057594037927936 % 256, bits / 281474976710656 % 256,
     bits / 1099511627776 % 256, bits / 4294967296 % 256,
     bits / 16777216 % 256, bits / 65536 % 256, bits / 256 % 256, bits % 256]

/-- Group bytes into 32-bit big-endian words. -/
def bytesToWords : List Nat → List Nat
  | b0 :: b1 :: b2 :: b3 :: rest =>
    (16777216 * b0 + 65536 * b1 + 256 * b2 + b3) :: bytesToWords rest
  | _ => []

/-- Extend sixteen words to the 64-word message schedule. -/
def sha256Extend (w : List Nat) : List Nat :=
  (List.range 48).foldl
    (fun w i =>
      let w15 := w.getD (i + 1) 0
      let w2 := w.getD (i + 14) 0
      let s0 := (rotr32 w15 7) ^^^ (rotr32 w15 18) ^^^ (w15 >>> 3)
      let s1 := (rotr32 w2 17) ^^^ (rotr32 w2 19) ^^^ (w2 >>> 10)
      w ++ [(w.getD i 0 + s0 + w.getD (i + 9) 0 + s1) % 4294967296])
    w

/-- The 64 compression rounds on the state `[a,b,c,d,e,f,g,h]`. -/
def sha256Rounds : List (Nat × Nat) → List Nat → List Nat
  | [], st => st
  | (ki, wi) :: rest, [a, b, c, d, e, f, g, h] =>
    let s1 := (rotr32 e 6) ^^^ (rotr32 e 11) ^^^ (rotr32 e 25)
    let ch := (e &&& f) ^^^ ((4294967295 - e) &&& g)
    let t1 := (h + s1 + ch + ki + wi) % 4294967296
    let s0 := (rotr32 a 2) ^^^ (rotr32 a 13) ^^^ (rotr32 a 22)
    let mj := (a &&& b) ^^^ (a &&& c) ^^^ (b &&& c)
    let t2 := (s0 + mj) % 4294967296
    sha256Rounds rest
      [(t1 + t2) % 4294967296, a, b, c, (d + t1) % 4294967296, e, f, g]
  | _ :: _, st => st

def sha256Block (h : List Nat) (block : List Nat) : List Nat :=
  let w := sha256Extend block
  let st := sha256Rounds (sha256K.zip w) h
  (h.zip st).map (fun p => (p.1 + p.2) % 4294967296)

def sha256ChunksAux : Nat → List Nat → List (List Nat)
  | 0, _ => []
  | _, [] => []
  | Nat.succ fuel, ws => ws.take 16 :: sha256ChunksAux fuel (ws.drop 16)

def sha256Chunks (ws : List Nat) : List (List Nat) := sha256ChunksAux ws.length ws

/-- SHA-256 digest of a byte sequence, as 32 bytes. -/
def sha256Bytes (msg : List Nat) : List Nat :=
  let ws := bytesToWords (sha256Pad msg)
  let h := (sha256Chunks ws).foldl sha256Block sha256H0
  h.flatMap (fun x => [x / 16777216 % 256, x / 65536 % 256, x / 256 % 256, x % 256])

/-- `hex.EncodeToString` of a digest. -/
def bytesToHex (bs : List Nat) : String :=
  ⟨bs.flatMap (fun b => [hexDigit (b / 16), hexDigit (b % 16)])⟩

/-- `hex.EncodeToString(sha256.Sum256([]byte(s)))`. -/
def sha256Hex (s : String) : String := bytesToHex (sha256Bytes (utf8Bytes s))

/-- The dynamic type of the third-revision `Dashboard.Widgets` interface
field: nil, a string (the persisted digest set by `SetWidgets`), or the
JSON-decoded value from an API response. -/
inductive WidgetsVal where
  | nullW : WidgetsVal
  | strW (s : String) : WidgetsVal
  | valW (v : GoVal) : WidgetsVal

/-- `Dashboard.SetWidgets` (`model/dashboard.go`, digest revision): an empty
submission stores ""; otherwise the stored comparable representation is the
SHA-256 hex digest of the *raw submitted text* (`sha256.Sum256([]byte(widgetsStr))`). -/
def setWidgets (tfWidgets : TFString) : WidgetsVal :=
  if tfWidgets.valueString = "" then .strW ""
  else .strW (sha256Hex tfWidgets.valueString)

/-- `Dashboard.WidgetsToTerraform` (`model/dashboard.go`, digest revision):
nil widgets render as ""; an already-stored digest string is returned as-is;
a JSON value from the API is marshalled and hashed. -/
def widgetsToTerraform : WidgetsVal → String
  | .nullW => ""
  | .strW s => s
  | .valW v => bytesToHex (sha256Bytes (utf8Bytes (goMarshal v)))

/-- Strict upper-key bound check for sortedness of canonical maps. -/
def ltHeadO (k : String) : GoObj → Bool
  | .nil => true
  | .cons k' _ _ => strLt k k'

/- Well-formed values: exactly the values `json.Unmarshal` can produce —
no Go `int` (`intV`), and every object in canonical strictly-sorted key
order. -/
mutual

def wfV : GoVal → Bool
  | .null => true
  | .boolV _ => true
  | .num _ => true
  | .intV _ => false
  | .str _ => true
  | .arr xs => wfA xs
  | .obj kvs => wfO kvs
termination_by structural v => v

def wfA : GoArr → Bool
  | .nil => true
  | .cons x t => wfV x && wfA t
termination_by structural xs => xs

def wfO : GoObj → Bool
  | .nil => true
  | .cons k v t => wfV v && wfO t && ltHeadO k t
termination_by structural kvs => kvs

end

/-- Value-wellformedness of member pairs in textual order (before the
canonical-map fold). -/
def wfValsO : GoObj → Bool
  | .nil => true
  | .cons _ v t => wfV v && wfValsO t

/-- Concatenation of association lists. -/
def GoObj.appendO : GoObj → GoObj → GoObj
  | .nil, m => m
  | .cons k v t, m => .cons k v (GoObj.appendO t m)

/-- All keys strictly below `k`. -/
def GoObj.allKeysLt : GoObj → String → Bool
  | .nil, _ => true
  | .cons k2 _ t, k => strLt k2 k && GoObj.allKeysLt t k

/-- Key-sortedness (strict) of the canonical `map[string]string`
representation. -/
def sortedStrKeys : List (String × String) → Bool
  | [] => true
  | [_] => true
  | a :: b :: t => strLt a.1 b.1 && sortedStrKeys (b :: t)

/-- Characters that both Go's `%q` and the JSON encoder leave untouched:
printable ASCII other than the quote and the backslash. -/
def plainChar (c : Char) : Bool :=
  32 ≤ c.toNat && c.toNat < 127 && c ≠ '"' && c ≠ '\\'

def plainStr (s : String) : Bool := s.data.all plainChar

/-- A condition text `rest` must satisfy after a printed number so that the
number's digits are unambiguous (holds for "", ",", "]", "\x7d" heads). -/
def numSafe : List Char → Prop
  | [] => True
  | c :: _ => ¬ (isDig c = true ∨ c = '.' ∨ c = 'e' ∨ c = 'E')

/-- A concrete alert state used by scenario witnesses: all server-managed
fields populated, previous condition `\x7b"a":1\x7d`. -/
def stateA : AlertResourceModel :=
  { id := .val ("alert-1"), alert := .val ("cpu"), alertType := .val ("METRIC_BASED_ALERT"),
    broadcastToAll := .val false, condition := .val ("\x7b\"a\":1\x7d"),
    description := .val ("d"), disabled := .val false, evalWindow := .val ("5m0s"),
    frequency := .val ("1m0s"), labels := [], preferredChannels := [],
    ruleType := .val ("threshold_rule"), severity := .val ("warning"),
    source := .val ("https://signoz/alerts"), lifecycleState := .val ("inactive"),
    summary := .val ("s"), version := .val ("v4"), createAt := .val ("t0"),
    createBy := .val ("alice"), updateAt := .val ("t1"), updateBy := .val ("bob") }

/-- A concrete desired plan differing from `stateA` only in the condition
(`\x7b"a":2\x7d`). -/
def planA : AlertResourceModel :=
  { stateA with condition := .val ("\x7b\"a\":2\x7d") }

/-- A concrete observed alert whose condition object is `\x7b"a":2\x7d`. -/
def obsA : AlertObs :=
  { id := "alert-1", alert := "cpu", alertType := "METRIC_BASED_ALERT",
    annotDescription := "d", annotSummary := "s", broadcastToAll := false,
    condition := .cons ("a") (.num 2) .nil, disabled := false,
    evalWindow := "5m0s", frequency := "1m0s",
    labels := [("managedBy", "terraform"), ("severity", "warning")],
    preferredChannels := [], ruleType := "threshold_rule",
    source := "https://signoz/alerts", lifecycleState := "inactive",
    version := "v4", createAt := "t0", createBy := "alice",
    updateAt := "t1", updateBy := "bob" }

/-- The nested condition tree
`\x7b"compositeQuery":\x7b"builderQueries":\x7b name :\x7b"hidden":true,"x":1\x7d\x7d\x7d\x7d`
used to probe positional suppression for an arbitrary query name. -/
def nestedHidden (name : String) : GoObj :=
  .cons ("compositeQuery")
    (.obj (.cons ("builderQueries")
      (.obj (.cons name
        (.obj (.cons ("hidden") (.boolV true) (.cons ("x") (.num 1) .nil))) .nil)) .nil)) .nil

/-- `nestedHidden` with the `hidden` pair removed. -/
def nestedStripped (name : String) : GoObj :=
  .cons ("compositeQuery")
    (.obj (.cons ("builderQueries")
      (.obj (.cons name
        (.obj (.cons ("x") (.num 1) .nil)) .nil)) .nil)) .nil

/-- Claim C1: Update merge rule — when both the desired and the previous
condition are present (and the desired condition is a valid JSON object so
the update cycle proceeds), the persisted state's condition equals the
desired value unless the semantic comparator finds desired and previous
equivalent, in which case it equals the previous value. -/
theorem alert_update_merge_rule (plan state : AlertResourceModel) (ds ps : String)
    (hplan : plan.condition = .val ds) (hstate : state.condition = .val ps)
    (hok : (setCondition ds).isSome = true) :
    ∃ r, alertUpdateNext plan state = some r ∧
      r.condition = (if areJSONsSemanticallyEqual ds ps then TFString.val ps
                     else TFString.val ds) := by
  unfold alertUpdateNext
  rw [hplan, hstate]
  simp only [TFString.valueString]
  cases hsc : setCondition ds with
  | none => rw [hsc] at hok; simp at hok
  | some c =>
    refine ⟨_, rfl, ?_⟩
    simp only [TFString.isNull, TFString.isUnknown, Bool.not_false, Bool.and_self, if_true]
    split
    · rfl
    · exact hplan

/-- Witness for C1 at the spec scenario: desired condition `\x7b"a":2\x7d`,
previous `\x7b"a":1\x7d`; equivalence fails and the next state's condition is
the desired one. -/
theorem alert_update_merge_rule_witness :
    planA.condition = .val ("\x7b\"a\":2\x7d") ∧
    stateA.condition = .val ("\x7b\"a\":1\x7d") ∧
    (setCondition ("\x7b\"a\":2\x7d")).isSome = true ∧
    areJSONsSemanticallyEqual ("\x7b\"a\":2\x7d") ("\x7b\"a\":1\x7d") = false ∧
    ∃ r, alertUpdateNext planA stateA = some r ∧
      r.condition = TFString.val ("\x7b\"a\":2\x7d") := by
  refine ⟨rfl, rfl, rfl, rfl, ?_⟩
  obtain ⟨r, h1, h2⟩ :=
    alert_update_merge_rule planA stateA ("\x7b\"a\":2\x7d") ("\x7b\"a\":1\x7d") rfl rfl rfl
  exact ⟨r, h1, by rw [h2]; rfl⟩

/-- Claim C2 (counterexample): the alert resource's Read does not mask the
condition with the previous state's value — after reading the observed
condition `\x7b"a":2\x7d` over a previous state `\x7b"a":1\x7d`, the next
state's condition is the (canonicalized) observed value, not the previous
one. -/
theorem read_masks_condition_cex :
    stateA.condition = .val ("\x7b\"a\":1\x7d") ∧
    (alertReadNext stateA obsA).condition = .val ("\x7b\"a\":2\x7d") ∧
    (alertReadNext stateA obsA).condition ≠ stateA.condition := by
  exact ⟨rfl, rfl, by decide⟩

/-- Claim C2 (amended): drift masking on Read holds for the dashboard's
structured JSON fields — widgets, layout, panel map, variables keep the
previous state's value while scalar/computed fields come from the observed
dashboard — but the alert's condition is always set from the observed value
(after stripping default fields), never kept from the previous state. -/
theorem read_drift_masking_amended :
    (∀ state obs, (dashboardReadNext state obs).widgets = state.widgets ∧
      (dashboardReadNext state obs).layout = state.layout ∧
      (dashboardReadNext state obs).panelMap = state.panelMap ∧
      (dashboardReadNext state obs).variablesStr = state.variablesStr ∧
      (dashboardReadNext state obs).title = .val obs.title ∧
      (dashboardReadNext state obs).description = .val obs.description ∧
      (dashboardReadNext state obs).updatedAt = .val obs.updatedAt) ∧
    (∀ state obs, (alertReadNext state obs).condition =
      .val (conditionToTerraform obs.condition)) :=
  ⟨fun _ _ => ⟨rfl, rfl, rfl, rfl, rfl, rfl, rfl⟩, fun _ _ => rfl⟩

/-- Claim C3: the default-field policy is intended to suppress
`"absentFor":0` (the rule `case "absentFor": return value == 0` exists for
exactly that, mirroring `normalizeCondition`'s injection of the default), but
the comparison is against an untyped `0` of Go type `int` while a JSON number
unmarshals as `float64`, so it never fires on parsed input: the comparator
reports the spec's scenario pair as inequivalent. -/
theorem absentFor_default_not_suppressed :
    areJSONsSemanticallyEqual
      ("\x7b\"absentFor\":0,\"alertOnAbsent\":false,\"a\":1\x7d")
      ("\x7b\"a\":1\x7d") = false ∧
    normalizeJSON ("\x7b\"absentFor\":0,\"alertOnAbsent\":false,\"a\":1\x7d") =
      some ("\x7b\"a\":1,\"absentFor\":0\x7d") ∧
    isDefaultField ("absentFor") (.num 0) = false ∧
    isDefaultField ("absentFor") (.intV 0) = true :=
  ⟨rfl, rfl, rfl, rfl⟩

/-- Claim C8: a parse failure of either input makes the semantic comparator
return false; the comparator is a total Boolean function, so no error
escapes it. -/
theorem parse_failure_inequivalent (s1 s2 : String)
    (h : jsonParse s1 = none ∨ jsonParse s2 = none) :
    areJSONsSemanticallyEqual s1 s2 = false := by
  unfold areJSONsSemanticallyEqual
  rcases h with h | h
  · rw [h]
  · rw [h]
    cases jsonParse s1 <;> rfl

/-- Witness for C8: the empty text and an unterminated object both fail to
parse; the comparator returns false. -/
theorem parse_failure_inequivalent_witness :
    (jsonParse ("") = none ∨ jsonParse ("\x7b\"a\":") = none) ∧
    areJSONsSemanticallyEqual ("") ("\x7b\"a\":") = false :=
  ⟨Or.inl rfl, parse_failure_inequivalent ("") ("\x7b\"a\":") (Or.inl rfl)⟩

/-- Claim C9: on Update, both resources carry the server-managed fields —
identifier, creation/update timestamps, audit (creator/updater) fields, the
alert's lifecycle state, and the source — over from the previous state,
regardless of the desired configuration. -/
theorem update_frame_server_managed :
    (∀ plan state r, alertUpdateNext plan state = some r →
      r.id = state.id ∧ r.createAt = state.createAt ∧ r.createBy = state.createBy ∧
      r.updateAt = state.updateAt ∧ r.updateBy = state.updateBy ∧
      r.source = state.source ∧ r.lifecycleState = state.lifecycleState) ∧
    (∀ plan state r, dashboardUpdateNext plan state = some r →
      r.id = state.id ∧ r.createdAt = state.createdAt ∧ r.createdBy = state.createdBy ∧
      r.updatedAt = state.updatedAt ∧ r.updatedBy = state.updatedBy ∧
      r.source = state.source) := by
  constructor
  · intro plan state r h
    unfold alertUpdateNext at h
    cases hsc : setCondition plan.condition.valueString with
    | none => rw [hsc] at h; cases h
    | some c =>
      rw [hsc] at h
      simp only [Option.some.injEq] at h
      subst h
      exact ⟨rfl, rfl, rfl, rfl, rfl, rfl, rfl⟩
  · intro plan state r h
    unfold dashboardUpdateNext at h
    cases hl : expandJsonArrOfObj plan.layout.valueString with
    | none => rw [hl] at h; cases h
    | some xs =>
      rw [hl] at h
      by_cases hb : (((plan.panelMap.valueString == "") ||
          (expandJsonObj plan.panelMap.valueString).isSome) &&
          (expandJsonObj plan.variablesStr.valueString).isSome) = true
      · rw [if_pos hb] at h
        simp only [Option.some.injEq] at h
        subst h
        exact ⟨rfl, rfl, rfl, rfl, rfl, rfl⟩
      · rw [if_neg hb] at h
        cases h

/-- Witness for C9: a concrete update succeeds, and every server-managed
field of its next state comes from the previous state. -/
theorem update_frame_server_managed_witness :
    (∃ r, alertUpdateNext planA stateA = some r) ∧
    ∀ r, alertUpdateNext planA stateA = some r →
      r.id = stateA.id ∧ r.createAt = stateA.createAt ∧ r.createBy = stateA.createBy ∧
      r.updateAt = stateA.updateAt ∧ r.updateBy = stateA.updateBy ∧
      r.source = stateA.source ∧ r.lifecycleState = stateA.lifecycleState :=
  ⟨⟨_, rfl⟩, fun r h => (update_frame_server_managed).1 planA stateA r h⟩

theorem GoObj.find_insert_self (k : String) (v : GoVal) :
    ∀ m : GoObj, (m.insertKV k v).find? k = some v
  | .nil => by simp [GoObj.insertKV, GoObj.find?]
  | .cons k2 v2 t => by
    unfold GoObj.insertKV
    by_cases h1 : strLt k k2 = true
    · rw [if_pos h1]; simp [GoObj.find?]
    · rw [if_neg h1]
      by_cases h2 : k = k2
      · rw [if_pos h2]; simp [GoObj.find?]
      · rw [if_neg h2]
        simp [GoObj.find?, h2, GoObj.find_insert_self k v t]

theorem GoObj.find_insert_ne (k k' : String) (v : GoVal) (h : k' ≠ k) :
    ∀ m : GoObj, (m.insertKV k v).find? k' = m.find? k'
  | .nil => by simp [GoObj.insertKV, GoObj.find?, h]
  | .cons k2 v2 t => by
    unfold GoObj.insertKV
    by_cases h1 : strLt k k2 = true
    · rw [if_pos h1]; simp [GoObj.find?, h]
    · rw [if_neg h1]
      by_cases h2 : k = k2
      · rw [if_pos h2]; subst h2; simp [GoObj.find?, h]
      · rw [if_neg h2]
        by_cases h3 : k' = k2
        · simp [GoObj.find?, h3]
        · simp [GoObj.find?, h3, GoObj.find_insert_ne k k' v h t]

theorem isNilAt_insert_ne (k k' : String) (v : GoVal) (m : GoObj) (h : k' ≠ k) :
    (m.insertKV k v).isNilAt k' = m.isNilAt k' := by
  unfold GoObj.isNilAt
  rw [GoObj.find_insert_ne k k' v h m]

theorem isDefaultField_obj_false (k : String) (kvs : GoObj) :
    isDefaultField k (.obj kvs) = false := by
  unfold isDefaultField
  repeat' split
  all_goals simp_all

theorem find_injectDefault_ne (k' k : String) (v : GoVal) (m : GoObj) (h : k' ≠ k) :
    (injectDefault k v m).find? k' = m.find? k' := by
  unfold injectDefault
  split
  · exact GoObj.find_insert_ne k k' v h m
  · rfl

theorem find_injectDefault_none (k : String) (v : GoVal) (m : GoObj)
    (h : m.find? k = none) :
    (injectDefault k v m).find? k = some v := by
  unfold injectDefault GoObj.isNilAt
  rw [h]
  exact GoObj.find_insert_self k v m

/-- Claim C7 (counterexample): the claim says a `"hidden":true` pair is
suppressed only inside the query named "A" (or defaults of "F1" only there)
and preserved elsewhere; but canonicalization strips `"hidden":true` under a
query named "B" just the same. -/
theorem hidden_suppressed_everywhere_cex :
    rdfObj (nestedHidden ("B")) = nestedStripped ("B") ∧
    nestedHidden ("B") ≠ nestedStripped ("B") ∧
    isDefaultField ("hidden") (.boolV true) = true := by
  refine ⟨rfl, ?_, rfl⟩
  intro h
  have h2 := congrArg (fun o => goMarshal (GoVal.obj o)) h
  simp only [] at h2
  exact absurd h2 (by decide)

/-- Claim C7 (amended): the position-dependence lives on the injection side,
not the suppression side.  `normalizeCondition`'s per-query injection adds
`hidden=true` exactly to the query named "A" and the empty-string
`reduceTo` default exactly to the query named "F1"; but the default-field
policy `isDefaultField` takes no context, so canonicalization removes a
`"hidden":true` pair nested under *any* query name. -/
theorem positional_injection_contextfree_suppression :
    (∀ name q, GoObj.find? ("hidden") q = none →
      GoObj.find? ("hidden") (normalizeQuery name q) =
        (if name = "A" then some (.boolV true) else none)) ∧
    (∀ name q, GoObj.find? ("reduceTo") q = none →
      GoObj.find? ("reduceTo") (normalizeQuery name q) =
        (if name = "F1" then some (.str "") else none)) ∧
    (∀ name, rdfObj (nestedHidden name) = nestedStripped name) := by
  refine ⟨?_, ?_, ?_⟩
  · intro name q hq
    unfold normalizeQuery
    simp only []
    have h3 : GoObj.find? ("hidden")
        (injectDefault ("groupBy") (.arr .nil)
          (injectDefault ("QueriesUsedInFormula") .null
            (injectDefault ("IsAnomaly") (.boolV false) q))) = none := by
      rw [find_injectDefault_ne _ _ _ _ (by decide),
          find_injectDefault_ne _ _ _ _ (by decide),
          find_injectDefault_ne _ _ _ _ (by decide), hq]
    by_cases hF : name = "F1"
    · subst hF
      rw [if_pos rfl, if_neg (by decide),
          find_injectDefault_ne _ _ _ _ (by decide),
          find_injectDefault_ne _ _ _ _ (by decide),
          find_injectDefault_ne _ _ _ _ (by decide), if_neg (by decide)]
      exact h3
    · rw [if_neg hF]
      by_cases hA : name = "A"
      · subst hA
        rw [if_pos rfl, if_pos rfl]
        exact find_injectDefault_none _ _ _ h3
      · rw [if_neg hA, if_neg hA]
        exact h3
  · intro name q hq
    unfold normalizeQuery
    simp only []
    have h3 : GoObj.find? ("reduceTo")
        (injectDefault ("groupBy") (.arr .nil)
          (injectDefault ("QueriesUsedInFormula") .null
            (injectDefault ("IsAnomaly") (.boolV false) q))) = none := by
      rw [find_injectDefault_ne _ _ _ _ (by decide),
          find_injectDefault_ne _ _ _ _ (by decide),
          find_injectDefault_ne _ _ _ _ (by decide), hq]
    by_cases hF : name = "F1"
    · subst hF
      rw [if_pos rfl, if_pos rfl, if_neg (by decide),
          find_injectDefault_ne _ _ _ _ (by decide),
          find_injectDefault_ne _ _ _ _ (by decide)]
      refine find_injectDefault_none _ _ _ ?_
      exact h3
    · rw [if_neg hF, if_neg hF]
      by_cases hA : name = "A"
      · subst hA
        rw [if_pos rfl,
            find_injectDefault_ne _ _ _ _ (by decide)]
        exact h3
      · rw [if_neg hA]
        exact h3
  · intro name
    simp [nestedHidden, nestedStripped, rdfObj, removeDefaultFields,
      isDefaultField_obj_false, isDefaultField]

/-- Witness for C7 at concrete inputs: in an empty query map, `hidden` is
injected under the query name "A" but not under "B", `reduceTo` under "F1"
but not under "B"; and canonicalization strips `"hidden":true` under "B". -/
theorem positional_injection_contextfree_suppression_witness :
    GoObj.find? ("hidden") (.nil) = none ∧
    GoObj.find? ("reduceTo") (.nil) = none ∧
    GoObj.find? ("hidden") (normalizeQuery ("A") .nil) = some (.boolV true) ∧
    GoObj.find? ("hidden") (normalizeQuery ("B") .nil) = none ∧
    GoObj.find? ("reduceTo") (normalizeQuery ("F1") .nil) = some (.str "") ∧
    GoObj.find? ("reduceTo") (normalizeQuery ("B") .nil) = none ∧
    rdfObj (nestedHidden ("B")) = nestedStripped ("B") := by
  refine ⟨rfl, rfl, ?_, ?_, ?_, ?_,
    positional_injection_contextfree_suppression.2.2 ("B")⟩
  · have h := positional_injection_contextfree_suppression.1 ("A") .nil rfl
    rwa [if_pos rfl] at h
  · have h := positional_injection_contextfree_suppression.1 ("B") .nil rfl
    rwa [if_neg (by decide)] at h
  · have h := positional_injection_contextfree_suppression.2.1 ("F1") .nil rfl
    rwa [if_pos rfl] at h
  · have h := positional_injection_contextfree_suppression.2.1 ("B") .nil rfl
    rwa [if_neg (by decide)] at h

theorem strBeq_comm (x y : String) : (x == y) = (y == x) := by
  by_cases h : x = y
  · subst h; rfl
  · have h1 : (x == y) = false := beq_eq_false_iff_ne.mpr h
    have h2 : (y == x) = false := beq_eq_false_iff_ne.mpr (Ne.symm h)
    rw [h1, h2]

/-- Claim C4 (counterexample): the comparator is not reflexive over *all*
texts — an unparseable text (here the empty string) is not equivalent to
itself, because either parse failure returns false. -/
theorem equivalent_not_reflexive_cex :
    jsonParse ("") = none ∧ areJSONsSemanticallyEqual ("") ("") = false :=
  ⟨rfl, rfl⟩

/-- Claim C4 (amended): the comparator is reflexive on every text that
parses as JSON, and symmetric and transitive over all texts. -/
theorem equivalent_equivalence_amended :
    (∀ a v, jsonParse a = some v → areJSONsSemanticallyEqual a a = true) ∧
    (∀ a b, areJSONsSemanticallyEqual a b = areJSONsSemanticallyEqual b a) ∧
    (∀ a b c, areJSONsSemanticallyEqual a b = true →
      areJSONsSemanticallyEqual b c = true → areJSONsSemanticallyEqual a c = true) := by
  refine ⟨?_, ?_, ?_⟩
  · intro a v h
    unfold areJSONsSemanticallyEqual
    rw [h]
    simp
  · intro a b
    unfold areJSONsSemanticallyEqual
    cases ha : jsonParse a <;> cases hb : jsonParse b <;> simp
    exact eq_comm
  · intro a b c h1 h2
    unfold areJSONsSemanticallyEqual at h1 h2 ⊢
    cases ha : jsonParse a with
    | none => simp_all
    | some va =>
      cases hb : jsonParse b with
      | none => simp_all
      | some vb =>
        cases hc : jsonParse c with
        | none => simp_all
        | some vc => simp_all

/-- Witness for C4: reflexivity discharged at a parseable text, symmetry and
transitivity at concrete texts. -/
theorem equivalent_equivalence_amended_witness :
    jsonParse ("\x7b\"a\":1\x7d") = some (.obj (.cons ("a") (.num 1) .nil)) ∧
    areJSONsSemanticallyEqual ("\x7b\"a\":1\x7d") ("\x7b\"a\":1\x7d") = true ∧
    areJSONsSemanticallyEqual ("\x7b\"a\":1\x7d") ("\x7b \"a\" : 1 \x7d") = true ∧
    areJSONsSemanticallyEqual ("\x7b \"a\" : 1 \x7d") ("\x7b\"a\":1, \"groupBy\":[]\x7d") = true ∧
    areJSONsSemanticallyEqual ("\x7b\"a\":1\x7d") ("\x7b\"a\":1, \"groupBy\":[]\x7d") = true := by
  refine ⟨rfl, ?_, rfl, rfl, ?_⟩
  · exact equivalent_equivalence_amended.1 ("\x7b\"a\":1\x7d") _ rfl
  · exact equivalent_equivalence_amended.2.2 ("\x7b\"a\":1\x7d") ("\x7b \"a\" : 1 \x7d")
      ("\x7b\"a\":1, \"groupBy\":[]\x7d") rfl rfl

theorem charListLt_irrefl : ∀ l : List Char, charListLt l l = false
  | [] => rfl
  | c :: t => by simp [charListLt, charListLt_irrefl t]

theorem charListLt_asymm : ∀ l1 l2 : List Char,
    charListLt l1 l2 = true → charListLt l2 l1 = false
  | [], [], h => by cases h
  | [], _ :: _, _ => rfl
  | _ :: _, [], h => by cases h
  | c :: t1, d :: t2, h => by
    unfold charListLt at h ⊢
    by_cases h1 : c.toNat < d.toNat
    · have h2 : ¬ d.toNat < c.toNat := by omega
      simp [h1, h2]
    · by_cases h2 : d.toNat < c.toNat
      · simp [h1, h2] at h
      · simp [h1, h2] at h ⊢
        exact charListLt_asymm t1 t2 h

theorem charListLt_trans : ∀ l1 l2 l3 : List Char,
    charListLt l1 l2 = true → charListLt l2 l3 = true → charListLt l1 l3 = true
  | [], _, _ :: _, _, _ => rfl
  | [], _ :: _, [], _, h2 => by cases h2
  | [], [], [], h1, _ => by cases h1
  | _ :: _, [], _, h1, _ => by cases h1
  | _ :: _, _ :: _, [], _, h2 => by cases h2
  | c :: t1, d :: t2, e :: t3, h1, h2 => by
    unfold charListLt at h1 h2 ⊢
    by_cases hcd : c.toNat < d.toNat
    · by_cases hde : d.toNat < e.toNat
      · have hce : c.toNat < e.toNat := by omega
        simp [hce]
      · by_cases hed : e.toNat < d.toNat
        · simp [hde, hed] at h2
        · have hce : c.toNat < e.toNat := by omega
          simp [hce]
    · by_cases hdc : d.toNat < c.toNat
      · simp [hcd, hdc] at h1
      · simp [hcd, hdc] at h1
        by_cases hde : d.toNat < e.toNat
        · have hce : c.toNat < e.toNat := by omega
          simp [hce]
        · by_cases hed : e.toNat < d.toNat
          · simp [hde, hed] at h2
          · have hce : ¬ c.toNat < e.toNat := by omega
            have hec : ¬ e.toNat < c.toNat := by omega
            simp [hde, hed] at h2
            simp [hce, hec]
            exact charListLt_trans t1 t2 t3 h1 h2

theorem strLt_irrefl (a : String) : strLt a a = false :=
  charListLt_irrefl a.data

theorem strLt_asymm (a b : String) (h : strLt a b = true) : strLt b a = false :=
  charListLt_asymm a.data b.data h

theorem strLt_trans (a b c : String) (h1 : strLt a b = true) (h2 : strLt b c = true) :
    strLt a c = true :=
  charListLt_trans a.data b.data c.data h1 h2

theorem strLt_ne (a b : String) (h : strLt a b = true) : a ≠ b := by
  intro he
  subst he
  rw [strLt_irrefl] at h
  cases h

theorem goQuoteChar_plain (c : Char) (h : plainChar c = true) : goQuoteChar c = [c] := by
  simp only [plainChar, Bool.and_eq_true, decide_eq_true_eq] at h
  obtain ⟨⟨⟨h1, h2⟩, h3⟩, h4⟩ := h
  unfold goQuoteChar
  have e3 : ¬ c = '\n' := by intro he; subst he; exact absurd h1 (by decide)
  have e4 : ¬ c = '\t' := by intro he; subst he; exact absurd h1 (by decide)
  have e5 : ¬ c = '\r' := by intro he; subst he; exact absurd h1 (by decide)
  have e6 : ¬ c = '\x07' := by intro he; subst he; exact absurd h1 (by decide)
  have e7 : ¬ c = '\x08' := by intro he; subst he; exact absurd h1 (by decide)
  have e8 : ¬ c = '\x0c' := by intro he; subst he; exact absurd h1 (by decide)
  have e9 : ¬ c = '\x0b' := by intro he; subst he; exact absurd h1 (by decide)
  have e10 : ¬ (c.toNat < 32 || c.toNat = 127) = true := by simp; omega
  simp [h3, h4, e3, e4, e5, e6, e7, e8, e9, e10]

theorem plain_flatMap_goQuoteChar (l : List Char) (h : ∀ c ∈ l, plainChar c = true) :
    l.flatMap goQuoteChar = l := by
  induction l with
  | nil => rfl
  | cons c t ih =>
    rw [List.flatMap_cons, goQuoteChar_plain c (h c (by simp)),
      ih (fun c hc => h c (by simp [hc]))]
    rfl

theorem plainChar_not_quote (c : Char) (h : plainChar c = true) : ¬ (c = '"') := by
  simp only [plainChar, Bool.and_eq_true, decide_eq_true_eq] at h
  exact h.1.2

/-- For a string of plain characters, `strings.Trim(value.String(), "\"")`
recovers the value exactly. -/
theorem trimQuotes_goQuote (s : String) (h : plainStr s = true) :
    trimQuotes (goQuote s) = s := by
  unfold plainStr at h
  rw [List.all_eq_true] at h
  unfold trimQuotes goQuote
  simp only []
  rw [plain_flatMap_goQuoteChar s.data (fun c hc => h c hc)]
  rw [List.cons_append, List.dropWhile_cons]
  simp only [decide_True, if_true]
  cases hs : s.data with
  | nil =>
    cases s
    simp_all [List.dropWhile]
  | cons c t =>
    have hc : plainChar c = true := h c (by simp [hs])
    have hcq : ¬ (c = '"') := plainChar_not_quote c hc
    rw [List.cons_append, List.dropWhile_cons]
    simp only [hcq, decide_False]
    rw [if_neg Bool.false_ne_true]
    rw [← List.cons_append, List.reverse_append]
    simp only [List.reverse_singleton, List.singleton_append]
    rw [List.dropWhile_cons]
    simp only [decide_True, if_true]
    have hrev : ∀ x ∈ (c :: t).reverse, plainChar x = true := by
      intro x hx
      rw [List.mem_reverse] at hx
      exact h x (by rw [hs]; exact hx)
    have hdw : (c :: t).reverse.dropWhile (fun x => decide (x = '"')) = (c :: t).reverse := by
      cases hr : (c :: t).reverse with
      | nil => rfl
      | cons y u =>
        rw [List.dropWhile_cons]
        have hy : plainChar y = true := hrev y (by rw [hr]; simp)
        simp [plainChar_not_quote y hy]
    rw [hdw, List.reverse_reverse, ← hs]

theorem insertStrKV_append (k v : String) :
    ∀ m : List (String × String), (∀ p ∈ m, strLt p.1 k = true) →
      insertStrKV k v m = m ++ [(k, v)]
  | [], _ => rfl
  | (k2, v2) :: t, hb => by
    have hlt : strLt k2 k = true := hb (k2, v2) (by simp)
    unfold insertStrKV
    rw [if_neg (by simp [strLt_asymm k2 k hlt]),
        if_neg (fun he => (strLt_ne k2 k hlt) he.symm)]
    rw [insertStrKV_append k v t (fun p hp => hb p (by simp [hp]))]
    rfl

theorem foldl_insert_pairwise :
    ∀ (l m : List (String × String)),
      List.Pairwise (fun a b => strLt a.1 b.1 = true) (m ++ l) →
      (∀ p ∈ l, plainStr p.2 = true) →
      List.foldl (fun acc kv => insertStrKV kv.1 (trimQuotes (goQuote kv.2)) acc) m l
        = m ++ l
  | [], m, _, _ => by simp
  | (k, v) :: t, m, hp, hv => by
    rw [List.foldl_cons]
    have hm : ∀ p ∈ m, strLt p.1 k = true := by
      rw [List.pairwise_append] at hp
      intro p hpm
      exact hp.2.2 p hpm (k, v) (by simp)
    have hplain : plainStr v = true := hv (k, v) (by simp)
    rw [List.append_cons] at hp
    simp only []
    rw [trimQuotes_goQuote v hplain, insertStrKV_append k v m hm]
    rw [foldl_insert_pairwise t (m ++ [(k, v)]) hp
      (fun p hpt => hv p (by simp [hpt]))]
    rw [← List.append_cons]

theorem filter_insert_false (p : String × String → Bool) (k v : String)
    (hp : ∀ v', p (k, v') = false) :
    ∀ m : List (String × String), List.filter p (insertStrKV k v m) = List.filter p m
  | [] => by simp [insertStrKV, List.filter_cons, hp v]
  | (k2, v2) :: t => by
    unfold insertStrKV
    by_cases h1 : strLt k k2 = true
    · rw [if_pos h1]
      simp [List.filter_cons, hp v]
    · rw [if_neg h1]
      by_cases h2 : k = k2
      · rw [if_pos h2]
        subst h2
        simp [List.filter_cons, hp v, hp v2]
      · rw [if_neg h2]
        rw [List.filter_cons, List.filter_cons, filter_insert_false p k v hp t]

/-- Claim C10 (counterexample): the label-value round trip is not exact for
every map — `SetLabels` stores `strings.Trim(value.String(), "\"")`, and for
the one-character value `"` the `%q` rendering is `"\""`, whose quote-trim is
`\`; the surfaced map differs from the original. -/
theorem labels_roundtrip_cex :
    labelsToTerraform (setLabels [(("k"), ("\""))] (.val ("info"))) = [(("k"), ("\\"))] ∧
    (("k"), ("\\")) ≠ (("k"), ("\"")) := by
  exact ⟨rfl, by decide⟩

/-- Claim C10 (amended): for every canonically-represented labels map whose
keys avoid "severity" and "managedBy" and whose values contain only plain
characters (printable ASCII without quote or backslash — exactly the values
Go's `%q` rendering leaves unescaped), and every non-empty severity,
`SetLabels` followed by `LabelsToTerraform` returns exactly the original
map: the injected "managedBy"="terraform" and "severity" labels are always
stripped and never surfaced. -/
theorem labels_roundtrip_amended (tfLabels : List (String × String)) (sev : String)
    (hsorted : List.Pairwise (fun a b => strLt a.1 b.1 = true) tfLabels)
    (hkeys : ∀ p ∈ tfLabels, p.1 ≠ attrSeverity ∧ p.1 ≠ terraformLabelKey)
    (hplain : ∀ p ∈ tfLabels, plainStr p.2 = true)
    (hsev : sev ≠ "") :
    labelsToTerraform (setLabels tfLabels (.val sev)) = tfLabels := by
  unfold setLabels
  simp only [TFString.valueString]
  rw [if_pos hsev]
  rw [foldl_insert_pairwise tfLabels [] (by simpa using hsorted) hplain]
  simp only [List.nil_append]
  unfold labelsToTerraform
  rw [filter_insert_false _ attrSeverity sev (by intro v'; simp),
      filter_insert_false _ terraformLabelKey terraformLabelValue (by intro v'; simp)]
  apply List.filter_eq_self.mpr
  intro p hp2
  have hk := hkeys p hp2
  simp [hk.1, hk.2]

/-- Witness for C10 at a concrete two-entry map. -/
theorem labels_roundtrip_amended_witness :
    List.Pairwise (fun a b : String × String => strLt a.1 b.1 = true)
      [(("env"), ("prod")), (("team"), ("core"))] ∧
    (∀ p ∈ [(("env"), ("prod")), (("team"), ("core"))],
      p.1 ≠ attrSeverity ∧ p.1 ≠ terraformLabelKey) ∧
    (∀ p ∈ [(("env"), ("prod")), (("team"), ("core"))], plainStr p.2 = true) ∧
    (("critical") : String) ≠ ("") ∧
    labelsToTerraform (setLabels [(("env"), ("prod")), (("team"), ("core"))]
      (.val ("critical"))) = [(("env"), ("prod")), (("team"), ("core"))] := by
  refine ⟨?_, ?_, ?_, ?_, ?_⟩
  · simp [List.pairwise_cons]
    decide
  · decide
  · decide
  · decide
  · exact labels_roundtrip_amended _ _ (by simp [List.pairwise_cons]; decide)
      (by decide) (by decide) (by decide)

/-- Claim C6 (counterexample): the persisted widgets digest is computed over
the raw submitted text, not over its canonical JSON serialization — the
texts `[]` and `[ ]` have the same canonical tree (and serialization) yet
`SetWidgets` persists different digests. -/
theorem widgets_digest_raw_text_cex :
    jsonParse ("[]") = some (.arr .nil) ∧
    jsonParse ("[ ]") = some (.arr .nil) ∧
    setWidgets (.val ("[]")) ≠ setWidgets (.val ("[ ]")) := by
  refine ⟨rfl, rfl, ?_⟩
  intro h
  have h2 := congrArg widgetsToTerraform h
  exact absurd h2 (by decide)

/-- Claim C6 (amended): on submission `SetWidgets` persists the SHA-256 hex
digest of the raw submitted text, and the digest `WidgetsToTerraform`
computes over an observed API value matches the persisted digest exactly
when the submitted text coincides with the compact canonical serialization
of the observed value (any other formatting of the same content yields a
different digest). -/
theorem widgets_digest_amended (t : String) (w : GoVal)
    (ht : t ≠ ("")) (hmatch : goMarshal w = t) :
    setWidgets (.val t) = .strW (sha256Hex t) ∧
    widgetsToTerraform (.valW w) = sha256Hex t := by
  constructor
  · unfold setWidgets
    simp [TFString.valueString, ht]
  · show bytesToHex (sha256Bytes (utf8Bytes (goMarshal w)))
        = bytesToHex (sha256Bytes (utf8Bytes t))
    rw [hmatch]

/-- Witness for C6 at `t = "[]"`, observed value the empty array. -/
theorem widgets_digest_amended_witness :
    (("[]") : String) ≠ ("") ∧ goMarshal (.arr .nil) = ("[]") ∧
    setWidgets (.val ("[]")) = .strW (sha256Hex ("[]")) ∧
    widgetsToTerraform (.valW (.arr .nil)) = sha256Hex ("[]") := by
  have h := widgets_digest_amended ("[]") (.arr .nil) (by decide) rfl
  exact ⟨by decide, rfl, h.1, h.2⟩

theorem isDefaultField_arr_cons_false (k : String) (x : GoVal) (t : GoArr) :
    isDefaultField k (.arr (.cons x t)) = false := by
  unfold isDefaultField
  repeat' split
  all_goals simp_all

/-- `isDefaultField` looks only at a value's shape, which
`removeDefaultFields` preserves, so a pass of stripping does not create new
matches. -/
theorem isDefaultField_rdf (k : String) (v : GoVal) :
    isDefaultField k (removeDefaultFields v) = isDefaultField k v := by
  cases v with
  | null => rfl
  | boolV b => rfl
  | num n => rfl
  | intV n => rfl
  | str s => rfl
  | obj kvs =>
    rw [show removeDefaultFields (.obj kvs) = .obj (rdfObj kvs) from rfl,
      isDefaultField_obj_false, isDefaultField_obj_false]
  | arr xs =>
    cases xs with
    | nil => rfl
    | cons x t =>
      rw [show removeDefaultFields (.arr (.cons x t))
            = .arr (.cons (removeDefaultFields x) (rdfArr t)) from rfl,
        isDefaultField_arr_cons_false, isDefaultField_arr_cons_false]

theorem rdfObj_cons (k : String) (v : GoVal) (t : GoObj) :
    rdfObj (.cons k v t) =
      if isDefaultField k v = true then rdfObj t
      else .cons k (removeDefaultFields v) (rdfObj t) := rfl

theorem rdfArr_cons (x : GoVal) (t : GoArr) :
    rdfArr (.cons x t) = .cons (removeDefaultFields x) (rdfArr t) := rfl

theorem rdf_obj (kvs : GoObj) : removeDefaultFields (.obj kvs) = .obj (rdfObj kvs) := rfl

theorem rdf_arr (xs : GoArr) : removeDefaultFields (.arr xs) = .arr (rdfArr xs) := rfl

mutual

theorem rdf_idem_v : ∀ v : GoVal,
    removeDefaultFields (removeDefaultFields v) = removeDefaultFields v
  | .null => rfl
  | .boolV _ => rfl
  | .num _ => rfl
  | .intV _ => rfl
  | .str _ => rfl
  | .arr xs => congrArg GoVal.arr (rdf_idem_a xs)
  | .obj kvs => congrArg GoVal.obj (rdf_idem_o kvs)

theorem rdf_idem_a : ∀ xs : GoArr, rdfArr (rdfArr xs) = rdfArr xs
  | .nil => rfl
  | .cons x t => by
    rw [rdfArr_cons, rdfArr_cons, rdf_idem_v x, rdf_idem_a t]

theorem rdf_idem_o : ∀ kvs : GoObj, rdfObj (rdfObj kvs) = rdfObj kvs
  | .nil => rfl
  | .cons k v t => by
    by_cases h : isDefaultField k v = true
    · rw [show rdfObj (.cons k v t) = rdfObj t from by
        rw [rdfObj_cons, if_pos h]]
      exact rdf_idem_o t
    · have h2 : isDefaultField k v = false := by
        cases hx : isDefaultField k v
        · rfl
        · exact absurd hx h
      rw [show rdfObj (.cons k v t) = .cons k (removeDefaultFields v) (rdfObj t) from by
        rw [rdfObj_cons, if_neg h]]
      rw [show rdfObj (.cons k (removeDefaultFields v) (rdfObj t))
            = .cons k (removeDefaultFields (removeDefaultFields v)) (rdfObj (rdfObj t)) from by
        rw [rdfObj_cons, isDefaultField_rdf, h2, if_neg (by simp)]]
      rw [rdf_idem_v v, rdf_idem_o t]

end

theorem wfO_cons (k : String) (v : GoVal) (t : GoObj) :
    wfO (.cons k v t) = (wfV v && wfO t && ltHeadO k t) := rfl

theorem wfV_obj (kvs : GoObj) : wfV (.obj kvs) = wfO kvs := rfl

theorem wfV_arr (xs : GoArr) : wfV (.arr xs) = wfA xs := rfl

theorem wfA_cons (x : GoVal) (t : GoArr) : wfA (.cons x t) = (wfV x && wfA t) := rfl

theorem ltHeadO_step (k k2 : String) (t : GoObj) (h1 : strLt k k2 = true)
    (h2 : ltHeadO k2 t = true) : ltHeadO k t = true := by
  cases t with
  | nil => rfl
  | cons k3 v3 t3 =>
    unfold ltHeadO at h2 ⊢
    exact strLt_trans k k2 k3 h1 h2

theorem ltHeadO_rdf (k : String) : ∀ kvs : GoObj, wfO kvs = true →
    ltHeadO k kvs = true → ltHeadO k (rdfObj kvs) = true
  | .nil, _, _ => rfl
  | .cons k2 v2 t, hwf, hlt => by
    rw [wfO_cons, Bool.and_eq_true, Bool.and_eq_true] at hwf
    have hlt2 : strLt k k2 = true := hlt
    rw [rdfObj_cons]
    by_cases h : isDefaultField k2 v2 = true
    · rw [if_pos h]
      exact ltHeadO_rdf k t hwf.1.2 (ltHeadO_step k k2 t hlt2 hwf.2)
    · rw [if_neg h]
      exact hlt2

mutual

theorem wf_rdf_v : ∀ v : GoVal, wfV v = true → wfV (removeDefaultFields v) = true
  | .null, _ => rfl
  | .boolV _, _ => rfl
  | .num _, _ => rfl
  | .intV _, h => h
  | .str _, _ => rfl
  | .arr xs, h => by
    rw [rdf_arr, wfV_arr]
    exact wf_rdf_a xs h
  | .obj kvs, h => by
    rw [rdf_obj, wfV_obj]
    exact wf_rdf_o kvs h

theorem wf_rdf_a : ∀ xs : GoArr, wfA xs = true → wfA (rdfArr xs) = true
  | .nil, _ => rfl
  | .cons x t, h => by
    rw [wfA_cons, Bool.and_eq_true] at h
    rw [rdfArr_cons, wfA_cons, Bool.and_eq_true]
    exact ⟨wf_rdf_v x h.1, wf_rdf_a t h.2⟩

theorem wf_rdf_o : ∀ kvs : GoObj, wfO kvs = true → wfO (rdfObj kvs) = true
  | .nil, _ => rfl
  | .cons k v t, h => by
    rw [wfO_cons, Bool.and_eq_true, Bool.and_eq_true] at h
    rw [rdfObj_cons]
    by_cases hd : isDefaultField k v = true
    · rw [if_pos hd]
      exact wf_rdf_o t h.1.2
    · rw [if_neg hd]
      rw [wfO_cons, Bool.and_eq_true, Bool.and_eq_true]
      exact ⟨⟨wf_rdf_v v h.1.1, wf_rdf_o t h.1.2⟩, ltHeadO_rdf k t h.1.2 h.2⟩

end

theorem char_eq_of_toNat_eq (c d : Char) (h : c.toNat = d.toNat) : c = d := by
  apply Char.eq_of_val_eq
  apply UInt32.eq_of_val_eq
  unfold Char.toNat UInt32.toNat at h
  exact_mod_cast Fin.ext h

theorem charListLt_total : ∀ l1 l2 : List Char,
    charListLt l1 l2 = true ∨ charListLt l2 l1 = true ∨ l1 = l2
  | [], [] => Or.inr (Or.inr rfl)
  | [], _ :: _ => Or.inl rfl
  | _ :: _, [] => Or.inr (Or.inl rfl)
  | c :: t1, d :: t2 => by
    by_cases h1 : c.toNat < d.toNat
    · exact Or.inl (by unfold charListLt; simp [h1])
    · by_cases h2 : d.toNat < c.toNat
      · exact Or.inr (Or.inl (by unfold charListLt; simp [h1, h2]))
      · have hcd : c = d := char_eq_of_toNat_eq c d (by omega)
        subst hcd
        rcases charListLt_total t1 t2 with h | h | h
        · exact Or.inl (by unfold charListLt; simp [h1, h2]; exact h)
        · exact Or.inr (Or.inl (by unfold charListLt; simp [h1, h2]; exact h))
        · exact Or.inr (Or.inr (by rw [h]))

theorem strLt_total (a b : String) :
    strLt a b = true ∨ strLt b a = true ∨ a = b := by
  rcases charListLt_total a.data b.data with h | h | h
  · exact Or.inl h
  · exact Or.inr (Or.inl h)
  · refine Or.inr (Or.inr ?_)
    cases a
    cases b
    simp_all

theorem ltHeadO_insert (k2 k : String) (v : GoVal) (hlt : strLt k2 k = true) :
    ∀ t : GoObj, ltHeadO k2 t = true → ltHeadO k2 (t.insertKV k v) = true
  | .nil, _ => hlt
  | .cons k3 v3 t3, h => by
    unfold GoObj.insertKV
    by_cases h1 : strLt k k3 = true
    · rw [if_pos h1]
      exact hlt
    · rw [if_neg h1]
      by_cases h2 : k = k3
      · rw [if_pos h2]
        exact hlt
      · rw [if_neg h2]
        exact h

theorem insertKV_wf (k : String) (v : GoVal) (hv : wfV v = true) :
    ∀ m : GoObj, wfO m = true → wfO (m.insertKV k v) = true
  | .nil, _ => by
    rw [show GoObj.insertKV k v .nil = .cons k v .nil from rfl, wfO_cons]
    simp [hv, wfO, ltHeadO]
  | .cons k2 v2 t, hm => by
    rw [wfO_cons, Bool.and_eq_true, Bool.and_eq_true] at hm
    unfold GoObj.insertKV
    by_cases h1 : strLt k k2 = true
    · rw [if_pos h1]
      rw [wfO_cons, Bool.and_eq_true, Bool.and_eq_true]
      refine ⟨⟨hv, ?_⟩, h1⟩
      rw [wfO_cons, Bool.and_eq_true, Bool.and_eq_true]
      exact ⟨⟨hm.1.1, hm.1.2⟩, hm.2⟩
    · rw [if_neg h1]
      by_cases h2 : k = k2
      · rw [if_pos h2]
        subst h2
        rw [wfO_cons, Bool.and_eq_true, Bool.and_eq_true]
        exact ⟨⟨hv, hm.1.2⟩, hm.2⟩
      · rw [if_neg h2]
        have h3 : strLt k2 k = true := by
          rcases strLt_total k k2 with h | h | h
          · exact absurd h h1
          · exact h
          · exact absurd h h2
        rw [wfO_cons, Bool.and_eq_true, Bool.and_eq_true]
        exact ⟨⟨hm.1.1, insertKV_wf k v hv t hm.1.2⟩,
          ltHeadO_insert k2 k v h3 t hm.2⟩

theorem objFromPairsAux_wf : ∀ (ps acc : GoObj), wfO acc = true →
    wfValsO ps = true → wfO (objFromPairsAux acc ps) = true
  | .nil, acc, ha, _ => ha
  | .cons k v t, acc, ha, hp => by
    rw [show wfValsO (.cons k v t) = (wfV v && wfValsO t) from rfl,
      Bool.and_eq_true] at hp
    rw [show objFromPairsAux acc (.cons k v t)
          = objFromPairsAux (acc.insertKV k v) t from rfl]
    exact objFromPairsAux_wf t (acc.insertKV k v)
      (insertKV_wf k v hp.1 acc ha) hp.2

theorem objFromPairs_wf (ps : GoObj) (hp : wfValsO ps = true) :
    wfO (objFromPairs ps) = true :=
  objFromPairsAux_wf ps .nil rfl hp

theorem wfValsO_cons (k : String) (v : GoVal) (t : GoObj) :
    wfValsO (.cons k v t) = (wfV v && wfValsO t) := rfl

mutual

theorem pw_v : ∀ (fuel : Nat) (cs : List Char) (v : GoVal) (rest : List Char),
    parseVal fuel cs = some (v, rest) → wfV v = true
  | 0, cs, v, rest, h => by cases h
  | Nat.succ f, cs, v, rest, h => by
    unfold parseVal at h
    simp only [] at h
    split at h
    · cases h
    · split_ifs at h
      all_goals (try (split at h))
      all_goals (try (cases h))
      all_goals (try rfl)
      all_goals
        first
        | (rw [wfV_obj]; exact objFromPairs_wf _ (pw_m f _ _ _ (by assumption)))
        | (rw [wfV_arr]; exact pw_e f _ _ _ (by assumption))

theorem pw_e : ∀ (fuel : Nat) (cs : List Char) (xs : GoArr) (rest : List Char),
    parseElems fuel cs = some (xs, rest) → wfA xs = true
  | 0, cs, xs, rest, h => by cases h
  | Nat.succ f, cs, xs, rest, h => by
    unfold parseElems at h
    simp only [] at h
    split at h
    · cases h
    · split_ifs at h
      all_goals (try (split at h))
      all_goals (try (cases h))
      all_goals
        first
        | (rw [wfA_cons, Bool.and_eq_true]
           exact ⟨pw_v f _ _ _ (by assumption), pw_e f _ _ _ (by assumption)⟩)
        | (rw [wfA_cons, Bool.and_eq_true]
           exact ⟨pw_v f _ _ _ (by assumption), rfl⟩)

theorem pw_m : ∀ (fuel : Nat) (cs : List Char) (ps : GoObj) (rest : List Char),
    parseMembers fuel cs = some (ps, rest) → wfValsO ps = true
  | 0, cs, ps, rest, h => by cases h
  | Nat.succ f, cs, ps, rest, h => by
    unfold parseMembers at h
    iterate 4
      all_goals (try (simp only [] at h))
      all_goals (try (split_ifs at h))
      all_goals (try (split at h))
      all_goals (try (cases h))
    all_goals
      first
      | (rw [wfValsO_cons, Bool.and_eq_true]
         exact ⟨pw_v f _ _ _ (by assumption), pw_m f _ _ _ (by assumption)⟩)
      | (rw [wfValsO_cons, Bool.and_eq_true]
         exact ⟨pw_v f _ _ _ (by assumption), rfl⟩)

end

theorem natCharsAux_succ (f n : Nat) : natCharsAux (Nat.succ f) n =
    if n < 10 then [Char.ofNat (48 + n)]
    else natCharsAux f (n / 10) ++ [Char.ofNat (48 + n % 10)] := rfl

theorem natCharsAux_fuel : ∀ (fuel n : Nat), n < fuel → natCharsAux fuel n = natChars n
  | 0, n, h => by omega
  | Nat.succ f, n, h => by
    unfold natChars
    rw [natCharsAux_succ, natCharsAux_succ]
    by_cases h10 : n < 10
    · rw [if_pos h10, if_pos h10]
    · have hd : n / 10 < n := Nat.div_lt_self (by omega) (by omega)
      rw [if_neg h10, if_neg h10,
        natCharsAux_fuel f (n / 10) (by omega), natCharsAux_fuel n (n / 10) hd]

/-- The decimal recurrence for `natChars`. -/
theorem natChars_rec (n : Nat) (h : ¬ n < 10) :
    natChars n = natChars (n / 10) ++ [Char.ofNat (48 + n % 10)] := by
  unfold natChars
  rw [natCharsAux_succ, if_neg h,
    natCharsAux_fuel n (n / 10) (Nat.div_lt_self (by omega) (by omega))]
  rfl

theorem natChars_small (n : Nat) (h : n < 10) : natChars n = [Char.ofNat (48 + n)] := by
  unfold natChars
  rw [natCharsAux_succ, if_pos h]

theorem toNat_digitChar (n : Nat) (h : n < 10) : (Char.ofNat (48 + n)).toNat = 48 + n := by
  have hv : (48 + n).isValidChar := Or.inl (by omega)
  rw [Char.ofNat, dif_pos hv]
  rfl

theorem isDig_digitChar (n : Nat) (h : n < 10) : isDig (Char.ofNat (48 + n)) = true := by
  unfold isDig
  rw [toNat_digitChar n h]
  simp only [Bool.and_eq_true, decide_eq_true_eq]
  omega

theorem natChars_ne_nil : ∀ n : Nat, natChars n ≠ []
  | n => by
    by_cases h : n < 10
    · rw [natChars_small n h]
      simp
    · rw [natChars_rec n h]
      simp

theorem natChars_digits : ∀ n : Nat, ∀ c ∈ natChars n, isDig c = true
  | n => by
    by_cases h : n < 10
    · rw [natChars_small n h]
      intro c hc
      rw [List.mem_singleton] at hc
      subst hc
      exact isDig_digitChar n h
    · rw [natChars_rec n h]
      intro c hc
      rw [List.mem_append] at hc
      rcases hc with hc | hc
      · exact natChars_digits (n / 10) c hc
      · rw [List.mem_singleton] at hc
        subst hc
        exact isDig_digitChar (n % 10) (by omega)
termination_by n => n
decreasing_by exact Nat.div_lt_self (by omega) (by omega)

theorem digitsToNat_append (l : List Char) (c : Char) :
    digitsToNat (l ++ [c]) = 10 * digitsToNat l + digitVal c := by
  unfold digitsToNat
  rw [List.foldl_append]
  rfl

theorem digitsToNat_natChars : ∀ n : Nat, digitsToNat (natChars n) = n
  | n => by
    by_cases h : n < 10
    · rw [natChars_small n h]
      unfold digitsToNat digitVal
      simp [toNat_digitChar n h]
    · rw [natChars_rec n h, digitsToNat_append,
        digitsToNat_natChars (n / 10)]
      unfold digitVal
      rw [toNat_digitChar (n % 10) (by omega)]
      omega
termination_by n => n
decreasing_by exact Nat.div_lt_self (by omega) (by omega)

theorem natChars_head_ne_zero : ∀ n : Nat, 0 < n →
    ∀ l, natChars n = '0' :: l → False
  | n, hn, l, he => by
    by_cases h : n < 10
    · rw [natChars_small n h] at he
      have : Char.ofNat (48 + n) = '0' := by
        have := List.head_eq_of_cons_eq he
        exact this
      have h2 : (Char.ofNat (48 + n)).toNat = 48 := by rw [this]; rfl
      rw [toNat_digitChar n h] at h2
      omega
    · rw [natChars_rec n h] at he
      cases hl : natChars (n / 10) with
      | nil => exact natChars_ne_nil (n / 10) hl
      | cons c0 l0 =>
        rw [hl] at he
        have hc0 : c0 = '0' := by
          have := List.head_eq_of_cons_eq (by simpa using he)
          exact this
        subst hc0
        have hpos : 0 < n / 10 := Nat.div_pos (by omega) (by omega)
        exact natChars_head_ne_zero (n / 10) hpos l0 hl
termination_by n => n
decreasing_by exact Nat.div_lt_self (by omega) (by omega)

theorem takeWhile_digits (l : List Char) (hd : ∀ c ∈ l, isDig c = true) :
    ∀ rest, numSafe rest →
      (l ++ rest).takeWhile isDig = l ∧ (l ++ rest).dropWhile isDig = rest := by
  induction l with
  | nil =>
    intro rest hns
    cases rest with
    | nil => exact ⟨rfl, rfl⟩
    | cons r0 rt =>
      unfold numSafe at hns
      push_neg at hns
      constructor
      · rw [List.nil_append, List.takeWhile_cons]
        simp [hns.1]
      · rw [List.nil_append, List.dropWhile_cons]
        simp [hns.1]
  | cons c t ih =>
    intro rest hns
    have hc : isDig c = true := hd c (by simp)
    have iht := ih (fun x hx => hd x (by simp [hx])) rest hns
    constructor
    · rw [List.cons_append, List.takeWhile_cons]
      simp [hc, iht.1]
    · rw [List.cons_append, List.dropWhile_cons]
      simp [hc, iht.2]

theorem parseNatNum_cons (c : Char) (rest : List Char) :
    parseNatNum (c :: rest) =
      (if c = '0' then
        match rest with
        | [] => some (0, [])
        | c2 :: _ =>
          if isDig c2 || c2 = '.' || c2 = 'e' || c2 = 'E' then none
          else some (0, rest)
      else if isDig c then
        match (c :: rest).dropWhile isDig with
        | [] => some (digitsToNat ((c :: rest).takeWhile isDig), [])
        | r0 :: _ =>
          if r0 = '.' || r0 = 'e' || r0 = 'E' then none
          else some (digitsToNat ((c :: rest).takeWhile isDig), (c :: rest).dropWhile isDig)
      else none) := rfl

theorem parseNatNum_natChars (n : Nat) (rest : List Char) (hns : numSafe rest) :
    parseNatNum (natChars n ++ rest) = some (n, rest) := by
  by_cases h0 : n = 0
  · subst h0
    rw [show natChars 0 = [('0' : Char)] from rfl, List.singleton_append]
    cases rest with
    | nil => rfl
    | cons r0 rt =>
      unfold numSafe at hns
      push_neg at hns
      rw [parseNatNum_cons, if_pos rfl]
      show (if isDig r0 || r0 = '.' || r0 = 'e' || r0 = 'E' then none
            else some (0, r0 :: rt)) = some (0, r0 :: rt)
      rw [if_neg]
      simp only [Bool.or_eq_true, decide_eq_true_eq, not_or]
      exact ⟨⟨⟨by simpa using hns.1, hns.2.1⟩, hns.2.2.1⟩, hns.2.2.2⟩
  · cases hl : natChars n with
    | nil => exact absurd hl (natChars_ne_nil n)
    | cons c0 l0 =>
      have hdig : ∀ c ∈ natChars n, isDig c = true := natChars_digits n
      have hc0 : isDig c0 = true := by
        rw [hl] at hdig
        exact hdig c0 (by simp)
      have hc0z : ¬ (c0 = '0') := by
        intro he
        subst he
        exact natChars_head_ne_zero n (by omega) l0 hl
      have htw := takeWhile_digits (natChars n) hdig rest hns
      rw [hl] at htw
      rw [List.cons_append] at htw
      rw [List.cons_append, parseNatNum_cons, if_neg hc0z, if_pos hc0,
        htw.1, htw.2, ← hl, digitsToNat_natChars n]
      cases rest with
      | nil => rfl
      | cons r0 rt =>
        unfold numSafe at hns
        push_neg at hns
        show (if r0 = '.' || r0 = 'e' || r0 = 'E' then none
              else some (n, r0 :: rt)) = some (n, r0 :: rt)
        rw [if_neg]
        simp only [Bool.or_eq_true, decide_eq_true_eq, not_or]
        exact ⟨⟨hns.2.1, hns.2.2.1⟩, hns.2.2.2⟩

theorem hexVal_hexDigit : ∀ x : Nat, x < 16 → hexVal (hexDigit x) = some x := by decide

theorem psb_close (rest acc : List Char) :
    parseStrBody ('"' :: rest) acc = some (⟨acc⟩, rest) := by
  conv_lhs => unfold parseStrBody
  rw [if_pos rfl]

theorem psb_esc (e u : Char) (he : unescCode e = some u) (hne : ¬ e = 'u')
    (r acc : List Char) :
    parseStrBody ('\\' :: e :: r) acc = parseStrBody r (acc ++ [u]) := by
  conv_lhs => unfold parseStrBody
  rw [if_neg (by decide), if_pos rfl]
  simp only []
  rw [if_neg hne, he]

theorem psb_uEsc (t : Nat) (ht : t < 55296) (cs acc : List Char) :
    parseStrBody (uEsc t ++ cs) acc = parseStrBody cs (acc ++ [Char.ofNat t]) := by
  have e1 : hexVal (hexDigit (t / 4096 % 16)) = some (t / 4096 % 16) :=
    hexVal_hexDigit _ (by omega)
  have e2 : hexVal (hexDigit (t / 256 % 16)) = some (t / 256 % 16) :=
    hexVal_hexDigit _ (by omega)
  have e3 : hexVal (hexDigit (t / 16 % 16)) = some (t / 16 % 16) :=
    hexVal_hexDigit _ (by omega)
  have e4 : hexVal (hexDigit (t % 16)) = some (t % 16) :=
    hexVal_hexDigit _ (by omega)
  have hn : 4096 * (t / 4096 % 16) + 256 * (t / 256 % 16) + 16 * (t / 16 % 16) + t % 16
      = t := by omega
  show parseStrBody ('\\' :: 'u' :: hexDigit (t / 4096 % 16) :: hexDigit (t / 256 % 16)
      :: hexDigit (t / 16 % 16) :: hexDigit (t % 16) :: cs) acc
    = parseStrBody cs (acc ++ [Char.ofNat t])
  conv_lhs => unfold parseStrBody
  rw [if_neg (by decide), if_pos rfl]
  simp only []
  simp only [if_true]
  simp only [e1, e2, e3, e4]
  rw [hn]
  rw [if_pos (by simp only [Bool.or_eq_true, decide_eq_true_eq]; omega)]

theorem psb_other (c : Char) (rest acc : List Char) (h1 : ¬ c = '"')
    (h2 : ¬ c = '\\') (h3 : ¬ c.toNat < 32) :
    parseStrBody (c :: rest) acc = parseStrBody rest (acc ++ [c]) := by
  conv_lhs => unfold parseStrBody
  rw [if_neg h1, if_neg h2, if_neg h3]

set_option maxHeartbeats 1600000 in
theorem parseStrBody_escChar (c : Char) (cs acc : List Char) :
    parseStrBody (escChar c ++ cs) acc = parseStrBody cs (acc ++ [c]) := by
  unfold escChar
  split_ifs with h1 h2 h3 h4 h5 h6 h7 h8 h9 h10 h11
  · subst h1
    exact psb_esc '"' '"' (by decide) (by decide) cs acc
  · subst h2
    exact psb_esc '\\' '\\' (by decide) (by decide) cs acc
  · subst h3
    exact psb_esc 'n' '\n' (by decide) (by decide) cs acc
  · subst h4
    exact psb_esc 'r' '\r' (by decide) (by decide) cs acc
  · subst h5
    exact psb_esc 't' '\t' (by decide) (by decide) cs acc
  · rw [psb_uEsc c.toNat (by omega) cs acc, Char.ofNat_toNat]
  · rw [psb_uEsc c.toNat (by subst h7; decide) cs acc, Char.ofNat_toNat]
  · rw [psb_uEsc c.toNat (by subst h8; decide) cs acc, Char.ofNat_toNat]
  · rw [psb_uEsc c.toNat (by subst h9; decide) cs acc, Char.ofNat_toNat]
  · rw [psb_uEsc c.toNat (by omega) cs acc, Char.ofNat_toNat]
  · rw [psb_uEsc c.toNat (by omega) cs acc, Char.ofNat_toNat]
  · rw [List.singleton_append]
    exact psb_other c cs acc h1 h2 (by omega)

theorem parseStrBody_quote : ∀ (l : List Char) (cs acc : List Char),
    parseStrBody (l.flatMap escChar ++ '"' :: cs) acc = some (⟨acc ++ l⟩, cs)
  | [], cs, acc => by
    rw [List.flatMap_nil, List.nil_append, psb_close, List.append_nil]
  | c :: t, cs, acc => by
    rw [List.flatMap_cons, List.append_assoc, parseStrBody_escChar,
      parseStrBody_quote t cs (acc ++ [c]), List.append_assoc,
      List.singleton_append]

/-- Reading a printed string literal recovers the string exactly. -/
theorem parseStrBody_quoteStr (s : String) (cs : List Char) :
    parseStrBody (s.data.flatMap escChar ++ '"' :: cs) [] = some (s, cs) := by
  rw [parseStrBody_quote s.data cs [], List.nil_append]

theorem skipWs_not_ws (c : Char) (l : List Char) (h : isWs c = false) :
    skipWs (c :: l) = c :: l := by
  simp [skipWs, List.dropWhile_cons, h]

theorem natChars_cons (m : Nat) : ∃ c l, natChars m = c :: l ∧ isDig c = true := by
  cases hl : natChars m with
  | nil => exact absurd hl (natChars_ne_nil m)
  | cons c l =>
    refine ⟨c, l, rfl, ?_⟩
    have := natChars_digits m
    rw [hl] at this
    exact this c (by simp)

/-- Every printed value starts with a non-whitespace character that is not a
closing bracket, closing brace, comma, or colon. -/
theorem printVal_head (w : GoVal) : ∃ c l, printVal w = c :: l ∧ isWs c = false ∧
    ¬ (c = ']') ∧ ¬ (c = '\x7d') ∧ ¬ (c = ',') ∧ ¬ (c = ':') := by
  cases w with
  | null => exact ⟨'n', _, rfl, by decide, by decide, by decide, by decide, by decide⟩
  | boolV b =>
    cases b with
    | true => exact ⟨'t', _, rfl, by decide, by decide, by decide, by decide, by decide⟩
    | false => exact ⟨'f', _, rfl, by decide, by decide, by decide, by decide, by decide⟩
  | str s => exact ⟨'"', _, rfl, by decide, by decide, by decide, by decide, by decide⟩
  | arr xs =>
    cases xs with
    | nil => exact ⟨'[', _, rfl, by decide, by decide, by decide, by decide, by decide⟩
    | cons x t => exact ⟨'[', _, rfl, by decide, by decide, by decide, by decide, by decide⟩
  | obj kvs =>
    cases kvs with
    | nil => exact ⟨'\x7b', _, rfl, by decide, by decide, by decide, by decide, by decide⟩
    | cons k v t =>
      exact ⟨'\x7b', _, rfl, by decide, by decide, by decide, by decide, by decide⟩
  | num n =>
    show ∃ c l, intChars n = c :: l ∧ _
    unfold intChars
    by_cases hn : n < 0
    · rw [if_pos hn]
      exact ⟨'-', _, rfl, by decide, by decide, by decide, by decide, by decide⟩
    · rw [if_neg hn]
      obtain ⟨c, l, hl, hc⟩ := natChars_cons n.natAbs
      have h1 : 48 ≤ c.toNat ∧ c.toNat ≤ 57 := by
        unfold isDig at hc
        simp only [Bool.and_eq_true, decide_eq_true_eq] at hc
        exact hc
      refine ⟨c, l, hl, ?_, ?_, ?_, ?_, ?_⟩
      · unfold isWs
        simp only [Bool.or_eq_false_iff, decide_eq_false_iff_not]
        refine ⟨⟨⟨?_, ?_⟩, ?_⟩, ?_⟩ <;> (intro he; rw [he] at h1; revert h1; decide)
      all_goals (intro he; rw [he] at h1; revert h1; decide)
  | intV n =>
    show ∃ c l, intChars n = c :: l ∧ _
    unfold intChars
    by_cases hn : n < 0
    · rw [if_pos hn]
      exact ⟨'-', _, rfl, by decide, by decide, by decide, by decide, by decide⟩
    · rw [if_neg hn]
      obtain ⟨c, l, hl, hc⟩ := natChars_cons n.natAbs
      have h1 : 48 ≤ c.toNat ∧ c.toNat ≤ 57 := by
        unfold isDig at hc
        simp only [Bool.and_eq_true, decide_eq_true_eq] at hc
        exact hc
      refine ⟨c, l, hl, ?_, ?_, ?_, ?_, ?_⟩
      · unfold isWs
        simp only [Bool.or_eq_false_iff, decide_eq_false_iff_not]
        refine ⟨⟨⟨?_, ?_⟩, ?_⟩, ?_⟩ <;> (intro he; rw [he] at h1; revert h1; decide)
      all_goals (intro he; rw [he] at h1; revert h1; decide)

theorem appendO_nil : ∀ m : GoObj, m.appendO .nil = m
  | .nil => rfl
  | .cons k v t => by
    rw [show GoObj.appendO (.cons k v t) .nil = .cons k v (t.appendO .nil) from rfl,
      appendO_nil t]

theorem appendO_cons_eq (k : String) (v : GoVal) (t m : GoObj) :
    GoObj.appendO (.cons k v t) m = .cons k v (t.appendO m) := rfl

theorem wfO_append_allKeysLt (k : String) (v : GoVal) (t : GoObj) :
    ∀ acc : GoObj, wfO (acc.appendO (.cons k v t)) = true →
      acc.allKeysLt k = true
  | .nil, _ => rfl
  | .cons k2 v2 a2, h => by
    rw [appendO_cons_eq, wfO_cons, Bool.and_eq_true, Bool.and_eq_true] at h
    have ih := wfO_append_allKeysLt k v t a2 h.1.2
    rw [show GoObj.allKeysLt (.cons k2 v2 a2) k = (strLt k2 k && a2.allKeysLt k) from rfl,
      Bool.and_eq_true]
    refine ⟨?_, ih⟩
    cases a2 with
    | nil => exact h.2
    | cons k3 v3 a3 =>
      have h3 : strLt k2 k3 = true := h.2
      have h4 : strLt k3 k = true := by
        have := ih
        rw [show GoObj.allKeysLt (.cons k3 v3 a3) k = (strLt k3 k && a3.allKeysLt k) from rfl,
          Bool.and_eq_true] at this
        exact this.1
      exact strLt_trans k2 k3 k h3 h4

theorem insertO_append (k : String) (v : GoVal) :
    ∀ m : GoObj, m.allKeysLt k = true → m.insertKV k v = m.appendO (.cons k v .nil)
  | .nil, _ => rfl
  | .cons k2 v2 t, hb => by
    rw [show GoObj.allKeysLt (.cons k2 v2 t) k = (strLt k2 k && t.allKeysLt k) from rfl,
      Bool.and_eq_true] at hb
    unfold GoObj.insertKV
    rw [if_neg (by simp [strLt_asymm k2 k hb.1]),
      if_neg (fun he => (strLt_ne k2 k hb.1) he.symm),
      insertO_append k v t hb.2]
    rfl

theorem appendO_snoc (k : String) (v : GoVal) (t : GoObj) :
    ∀ a : GoObj, (a.appendO (.cons k v .nil)).appendO t = a.appendO (.cons k v t)
  | .nil => rfl
  | .cons k2 v2 a2 => by
    rw [appendO_cons_eq, appendO_cons_eq, appendO_cons_eq, appendO_snoc k v t a2]

theorem objFromPairsAux_sorted : ∀ (ps acc : GoObj),
    wfO (acc.appendO ps) = true → objFromPairsAux acc ps = acc.appendO ps
  | .nil, acc, _ => by
    rw [show objFromPairsAux acc .nil = acc from rfl, appendO_nil]
  | .cons k v t, acc, h => by
    have hk : acc.allKeysLt k = true := wfO_append_allKeysLt k v t acc h
    have hre : (acc.appendO (.cons k v .nil)).appendO t = acc.appendO (.cons k v t) :=
      appendO_snoc k v t acc
    rw [show objFromPairsAux acc (.cons k v t)
          = objFromPairsAux (acc.insertKV k v) t from rfl,
      insertO_append k v acc hk,
      objFromPairsAux_sorted t _ (by rw [hre]; exact h), hre]

theorem objFromPairs_id (kvs : GoObj) (h : wfO kvs = true) : objFromPairs kvs = kvs := by
  unfold objFromPairs
  rw [objFromPairsAux_sorted kvs .nil h]
  rfl

theorem sizeW_pos : ∀ w : GoVal, 1 ≤ sizeW w
  | .null => le_refl 1
  | .boolV _ => le_refl 1
  | .num _ => le_refl 1
  | .intV _ => le_refl 1
  | .str _ => le_refl 1
  | .arr xs => by rw [show sizeW (.arr xs) = 1 + sizeA xs from rfl]; omega
  | .obj kvs => by rw [show sizeW (.obj kvs) = 1 + sizeO kvs from rfl]; omega

theorem numSafe_arrTail (t : GoArr) (rest : List Char) :
    numSafe (printArrTail t ++ ']' :: rest) := by
  cases t with
  | nil => exact (by decide : ¬ (isDig ']' = true ∨ ']' = '.' ∨ ']' = 'e' ∨ ']' = 'E'))
  | cons y t2 =>
    rw [show printArrTail (.cons y t2) = ',' :: printVal y ++ printArrTail t2 from rfl]
    exact (by decide : ¬ (isDig ',' = true ∨ ',' = '.' ∨ ',' = 'e' ∨ ',' = 'E'))

theorem numSafe_objTail (t : GoObj) (rest : List Char) :
    numSafe (printObjTail t ++ '\x7d' :: rest) := by
  cases t with
  | nil => exact (by decide : ¬ (isDig '\x7d' = true ∨ '\x7d' = '.' ∨ '\x7d' = 'e' ∨ '\x7d' = 'E'))
  | cons k v t2 =>
    rw [show printObjTail (.cons k v t2) = ',' :: quoteStr k ++ ':' :: printVal v
        ++ printObjTail t2 from rfl]
    exact (by decide : ¬ (isDig ',' = true ∨ ',' = '.' ∨ ',' = 'e' ∨ ',' = 'E'))

theorem digit_not_special (c : Char) (h1 : 48 ≤ c.toNat) (h2 : c.toNat ≤ 57) :
    ¬ c = 'n' ∧ ¬ c = 't' ∧ ¬ c = 'f' ∧ ¬ c = '"' ∧ ¬ c = '\x7b' ∧ ¬ c = '[' ∧ ¬ c = '-' := by
  refine ⟨?_, ?_, ?_, ?_, ?_, ?_, ?_⟩ <;>
    (intro he; subst he; revert h1 h2; decide)

theorem parseVal_nat (f : Nat) (m : Nat) (rest : List Char) (hns : numSafe rest) :
    parseVal (Nat.succ f) (natChars m ++ rest) = some (.num (m : Int), rest) := by
  obtain ⟨c, l, hl, hc⟩ := natChars_cons m
  have h12 : 48 ≤ c.toNat ∧ c.toNat ≤ 57 := by
    unfold isDig at hc
    simp only [Bool.and_eq_true, decide_eq_true_eq] at hc
    exact hc
  obtain ⟨e1, e2, e3, e4, e5, e6, e7⟩ := digit_not_special c h12.1 h12.2
  have hws : isWs c = false := by
    unfold isWs
    simp only [Bool.or_eq_false_iff, decide_eq_false_iff_not]
    refine ⟨⟨⟨?_, ?_⟩, ?_⟩, ?_⟩ <;>
      (intro he; subst he; revert h12; decide)
  rw [hl, List.cons_append]
  conv_lhs => unfold parseVal
  rw [skipWs_not_ws c _ hws]
  simp only []
  rw [if_neg e1, if_neg e2, if_neg e3, if_neg e4, if_neg e5, if_neg e6, if_neg e7,
    if_pos hc]
  rw [← List.cons_append, ← hl, parseNatNum_natChars m rest hns]

theorem parseVal_int (f : Nat) (n : Int) (rest : List Char) (hns : numSafe rest) :
    parseVal (Nat.succ f) (intChars n ++ rest) = some (.num n, rest) := by
  cases n with
  | ofNat m =>
    rw [show intChars (Int.ofNat m) = natChars m from by
      unfold intChars
      simp only [Int.ofNat_eq_natCast]
      rw [if_neg (show ¬ ((m : Int) < 0) by omega)]
      rfl]
    exact parseVal_nat f m rest hns
  | negSucc m =>
    rw [show intChars (Int.negSucc m) = '-' :: natChars (m + 1) from by
      unfold intChars
      rw [if_pos (Int.negSucc_lt_zero m)]
      rfl]
    rw [List.cons_append]
    conv_lhs => unfold parseVal
    rw [skipWs_not_ws '-' _ (by decide)]
    simp only []
    rw [if_neg (by decide), if_neg (by decide), if_neg (by decide), if_neg (by decide),
      if_neg (by decide), if_neg (by decide), if_pos trivial]
    rw [parseNatNum_natChars (m + 1) rest hns]
    have : -((m + 1 : Nat) : Int) = Int.negSucc m := by
      rw [Int.negSucc_eq]
      omega
    simp only []
    rw [this]

mutual

theorem szV : ∀ w : GoVal, sizeW w ≤ (printVal w).length
  | .null => by decide
  | .boolV true => by decide
  | .boolV false => by decide
  | .num n => by
    rw [show sizeW (GoVal.num n) = 1 from rfl,
      show printVal (GoVal.num n) = intChars n from rfl]
    unfold intChars
    by_cases h : n < 0
    · rw [if_pos h]
      simp only [List.length_cons]
      omega
    · rw [if_neg h]
      cases hl : natChars n.natAbs with
      | nil => exact absurd hl (natChars_ne_nil _)
      | cons c l =>
        simp only [List.length_cons]
        omega
  | .intV n => by
    rw [show sizeW (GoVal.intV n) = 1 from rfl,
      show printVal (GoVal.intV n) = intChars n from rfl]
    unfold intChars
    by_cases h : n < 0
    · rw [if_pos h]
      simp only [List.length_cons]
      omega
    · rw [if_neg h]
      cases hl : natChars n.natAbs with
      | nil => exact absurd hl (natChars_ne_nil _)
      | cons c l =>
        simp only [List.length_cons]
        omega
  | .str s => by
    rw [show sizeW (GoVal.str s) = 1 from rfl,
      show printVal (GoVal.str s) = '"' :: (s.data.flatMap escChar) ++ ['"'] from rfl]
    simp only [List.length_cons, List.length_append]
    omega
  | .arr xs => by
    have h2 := szA xs
    cases xs with
    | nil => decide
    | cons x t =>
      rw [show printArrTail (GoArr.cons x t) = ',' :: printVal x ++ printArrTail t from rfl]
        at h2
      have hs : sizeA (GoArr.cons x t) = 1 + sizeW x + sizeA t := rfl
      rw [show sizeW (GoVal.arr (.cons x t)) = 1 + sizeA (GoArr.cons x t) from rfl,
        show printVal (GoVal.arr (.cons x t))
          = '[' :: (printVal x ++ printArrTail t) ++ [']'] from rfl]
      simp only [List.length_cons, List.length_append] at h2 ⊢
      omega
  | .obj kvs => by
    have h2 := szO kvs
    cases kvs with
    | nil => decide
    | cons k v t =>
      rw [show printObjTail (GoObj.cons k v t)
            = ',' :: quoteStr k ++ ':' :: printVal v ++ printObjTail t from rfl] at h2
      have hs : sizeO (GoObj.cons k v t) = 1 + sizeW v + sizeO t := rfl
      rw [show sizeW (GoVal.obj (.cons k v t)) = 1 + sizeO (GoObj.cons k v t) from rfl,
        show printVal (GoVal.obj (.cons k v t))
          = '\x7b' :: (quoteStr k ++ ':' :: printVal v ++ printObjTail t) ++ ['\x7d'] from rfl]
      simp only [List.length_cons, List.length_append] at h2 ⊢
      omega

theorem szA : ∀ t : GoArr, sizeA t ≤ (printArrTail t).length
  | .nil => by decide
  | .cons x t => by
    have h1 := szV x
    have h2 := szA t
    rw [show sizeA (GoArr.cons x t) = 1 + sizeW x + sizeA t from rfl,
      show printArrTail (GoArr.cons x t) = ',' :: printVal x ++ printArrTail t from rfl]
    simp only [List.length_cons, List.length_append]
    omega

theorem szO : ∀ t : GoObj, sizeO t ≤ (printObjTail t).length
  | .nil => by decide
  | .cons k v t => by
    have h1 := szV v
    have h2 := szO t
    rw [show sizeO (GoObj.cons k v t) = 1 + sizeW v + sizeO t from rfl,
      show printObjTail (GoObj.cons k v t)
        = ',' :: quoteStr k ++ ':' :: printVal v ++ printObjTail t from rfl]
    simp only [List.length_cons, List.length_append]
    omega

end

mutual

theorem rtV : ∀ (fuel : Nat) (w : GoVal) (rest : List Char), wfV w = true →
    numSafe rest → sizeW w ≤ fuel →
    parseVal fuel (printVal w ++ rest) = some (w, rest)
  | 0, w, rest, _, _, hf => absurd hf (by
      have := sizeW_pos w
      omega)
  | Nat.succ f, .null, rest, _, _, _ => by rfl
  | Nat.succ f, .boolV true, rest, _, _, _ => by rfl
  | Nat.succ f, .boolV false, rest, _, _, _ => by rfl
  | Nat.succ f, .num n, rest, _, hns, _ => parseVal_int f n rest hns
  | Nat.succ f, .intV n, rest, hwf, _, _ => Bool.noConfusion hwf
  | Nat.succ f, .str s, rest, _, _, _ => by
    rw [show printVal (GoVal.str s) ++ rest
          = '"' :: (s.data.flatMap escChar ++ '"' :: rest) from by
      rw [show printVal (GoVal.str s) = '"' :: (s.data.flatMap escChar) ++ ['"'] from rfl]
      simp [List.append_assoc]]
    conv_lhs => unfold parseVal
    rw [skipWs_not_ws '"' _ (by decide)]
    simp only []
    rw [if_neg (by decide), if_neg (by decide), if_neg (by decide)]
    rw [if_pos trivial]
    rw [parseStrBody_quoteStr s rest]
  | Nat.succ f, .arr .nil, rest, _, _, _ => by rfl
  | Nat.succ f, .arr (.cons x t), rest, hwf, _, hf => by
    rw [wfV_arr, wfA_cons, Bool.and_eq_true] at hwf
    have hfe : sizeA (GoArr.cons x t) ≤ f := by
      rw [show sizeW (GoVal.arr (.cons x t)) = 1 + sizeA (GoArr.cons x t) from rfl] at hf
      omega
    rw [show printVal (GoVal.arr (.cons x t)) ++ rest
          = '[' :: (printVal x ++ (printArrTail t ++ ']' :: rest)) from by
      rw [show printVal (GoVal.arr (.cons x t))
            = '[' :: (printVal x ++ printArrTail t) ++ [']'] from rfl]
      simp [List.append_assoc]]
    conv_lhs => unfold parseVal
    rw [skipWs_not_ws '[' _ (by decide)]
    simp only []
    rw [if_neg (by decide), if_neg (by decide), if_neg (by decide), if_neg (by decide),
      if_neg (by decide)]
    rw [if_pos trivial]
    obtain ⟨c, l, hl, hcw, hc1, hc2, hc3, hc4⟩ := printVal_head x
    rw [hl, List.cons_append, skipWs_not_ws c _ hcw]
    rw [show headIs ']' (c :: (l ++ (printArrTail t ++ ']' :: rest))) = false from by
      unfold headIs
      simp [hc1]]
    rw [if_neg (by simp)]
    rw [← List.cons_append, ← hl]
    rw [rtE f x t rest hwf.1 hwf.2 hfe]
  | Nat.succ f, .obj .nil, rest, _, _, _ => by rfl
  | Nat.succ f, .obj (.cons k v t), rest, hwf, _, hf => by
    have hwfo : wfO (GoObj.cons k v t) = true := hwf
    rw [wfV_obj, wfO_cons, Bool.and_eq_true, Bool.and_eq_true] at hwf
    have hfm : sizeO (GoObj.cons k v t) ≤ f := by
      rw [show sizeW (GoVal.obj (.cons k v t)) = 1 + sizeO (GoObj.cons k v t) from rfl] at hf
      omega
    rw [show printVal (GoVal.obj (.cons k v t)) ++ rest
          = '\x7b' :: (quoteStr k
              ++ (':' :: (printVal v ++ (printObjTail t ++ '\x7d' :: rest)))) from by
      rw [show printVal (GoVal.obj (.cons k v t))
            = '\x7b' :: (quoteStr k ++ ':' :: printVal v ++ printObjTail t) ++ ['\x7d'] from rfl]
      simp [List.append_assoc]]
    conv_lhs => unfold parseVal
    rw [skipWs_not_ws '\x7b' _ (by decide)]
    simp only []
    rw [if_neg (by decide), if_neg (by decide), if_neg (by decide), if_neg (by decide)]
    rw [if_pos trivial]
    rw [show quoteStr k ++ (':' :: (printVal v ++ (printObjTail t ++ '\x7d' :: rest)))
          = '"' :: (k.data.flatMap escChar
              ++ '"' :: (':' :: (printVal v ++ (printObjTail t ++ '\x7d' :: rest)))) from by
      rw [show quoteStr k = '"' :: (k.data.flatMap escChar) ++ ['"'] from rfl]
      simp [List.append_assoc]]
    rw [skipWs_not_ws '"' _ (by decide)]
    rw [show headIs '\x7d' ('"' :: (k.data.flatMap escChar
          ++ '"' :: (':' :: (printVal v ++ (printObjTail t ++ '\x7d' :: rest))))) = false from by
      unfold headIs
      simp]
    rw [if_neg (by simp)]
    rw [show ('"' :: (k.data.flatMap escChar
          ++ '"' :: (':' :: (printVal v ++ (printObjTail t ++ '\x7d' :: rest)))))
        = quoteStr k ++ (':' :: (printVal v ++ (printObjTail t ++ '\x7d' :: rest))) from by
      rw [show quoteStr k = '"' :: (k.data.flatMap escChar) ++ ['"'] from rfl]
      simp [List.append_assoc]]
    rw [rtM f k v t rest hwf.1.1 hwf.1.2 hfm]
    simp only []
    rw [objFromPairs_id _ hwfo]

theorem rtE : ∀ (fuel : Nat) (x : GoVal) (t : GoArr) (rest : List Char),
    wfV x = true → wfA t = true → sizeA (GoArr.cons x t) ≤ fuel →
    parseElems fuel (printVal x ++ (printArrTail t ++ ']' :: rest)) = some (.cons x t, rest)
  | 0, x, t, rest, _, _, hf => absurd hf (by
      rw [show sizeA (GoArr.cons x t) = 1 + sizeW x + sizeA t from rfl]
      omega)
  | Nat.succ f, x, t, rest, hx, ht, hf => by
    have hfx : sizeW x ≤ f := by
      rw [show sizeA (GoArr.cons x t) = 1 + sizeW x + sizeA t from rfl] at hf
      omega
    conv_lhs => unfold parseElems
    rw [rtV f x (printArrTail t ++ ']' :: rest) hx (numSafe_arrTail t rest) hfx]
    simp only []
    cases t with
    | nil =>
      rw [show printArrTail GoArr.nil ++ ']' :: rest = ']' :: rest from rfl]
      rfl
    | cons y t2 =>
      rw [wfA_cons, Bool.and_eq_true] at ht
      have hfy : sizeA (GoArr.cons y t2) ≤ f := by
        rw [show sizeA (GoArr.cons x (.cons y t2))
              = 1 + sizeW x + (1 + sizeW y + sizeA t2) from rfl] at hf
        have := sizeW_pos x
        rw [show sizeA (GoArr.cons y t2) = 1 + sizeW y + sizeA t2 from rfl]
        omega
      rw [show printArrTail (GoArr.cons y t2) ++ ']' :: rest
            = ',' :: (printVal y ++ (printArrTail t2 ++ ']' :: rest)) from by
        rw [show printArrTail (GoArr.cons y t2)
              = ',' :: printVal y ++ printArrTail t2 from rfl]
        simp [List.append_assoc]]
      rw [skipWs_not_ws ',' _ (by decide)]
      rw [show headIs ',' (',' :: (printVal y ++ (printArrTail t2 ++ ']' :: rest)))
            = true from rfl]
      rw [if_pos rfl]
      rw [List.tail_cons]
      rw [rtE f y t2 rest ht.1 ht.2 hfy]

theorem rtM : ∀ (fuel : Nat) (k : String) (v : GoVal) (t : GoObj) (rest : List Char),
    wfV v = true → wfO t = true → sizeO (GoObj.cons k v t) ≤ fuel →
    parseMembers fuel
        (quoteStr k ++ (':' :: (printVal v ++ (printObjTail t ++ '\x7d' :: rest))))
      = some (.cons k v t, rest)
  | 0, k, v, t, rest, _, _, hf => absurd hf (by
      rw [show sizeO (GoObj.cons k v t) = 1 + sizeW v + sizeO t from rfl]
      omega)
  | Nat.succ f, k, v, t, rest, hv, ht, hf => by
    have hfv : sizeW v ≤ f := by
      rw [show sizeO (GoObj.cons k v t) = 1 + sizeW v + sizeO t from rfl] at hf
      omega
    have hq : quoteStr k ++ (':' :: (printVal v ++ (printObjTail t ++ '\x7d' :: rest)))
        = '"' :: (k.data.flatMap escChar
            ++ '"' :: (':' :: (printVal v ++ (printObjTail t ++ '\x7d' :: rest)))) := by
      rw [show quoteStr k = '"' :: (k.data.flatMap escChar) ++ ['"'] from rfl]
      simp [List.append_assoc]
    conv_lhs => unfold parseMembers
    simp only []
    rw [hq, skipWs_not_ws '"' _ (by decide)]
    rw [show headIs '"' ('"' :: (k.data.flatMap escChar
          ++ '"' :: (':' :: (printVal v ++ (printObjTail t ++ '\x7d' :: rest))))) = true from rfl]
    rw [if_pos rfl]
    rw [List.tail_cons]
    rw [parseStrBody_quoteStr k (':' :: (printVal v ++ (printObjTail t ++ '\x7d' :: rest)))]
    simp only []
    rw [skipWs_not_ws ':' _ (by decide)]
    rw [show headIs ':' (':' :: (printVal v ++ (printObjTail t ++ '\x7d' :: rest)))
          = true from rfl]
    rw [if_pos rfl]
    rw [List.tail_cons]
    rw [rtV f v (printObjTail t ++ '\x7d' :: rest) hv (numSafe_objTail t rest) hfv]
    simp only []
    cases t with
    | nil =>
      rw [show printObjTail GoObj.nil ++ '\x7d' :: rest = '\x7d' :: rest from rfl]
      rfl
    | cons k2 v2 t2 =>
      rw [wfO_cons, Bool.and_eq_true, Bool.and_eq_true] at ht
      have hf2 : sizeO (GoObj.cons k2 v2 t2) ≤ f := by
        rw [show sizeO (GoObj.cons k v (.cons k2 v2 t2))
              = 1 + sizeW v + (1 + sizeW v2 + sizeO t2) from rfl] at hf
        have := sizeW_pos v
        rw [show sizeO (GoObj.cons k2 v2 t2) = 1 + sizeW v2 + sizeO t2 from rfl]
        omega
      rw [show printObjTail (GoObj.cons k2 v2 t2) ++ '\x7d' :: rest
            = ',' :: (quoteStr k2
                ++ (':' :: (printVal v2 ++ (printObjTail t2 ++ '\x7d' :: rest)))) from by
        rw [show printObjTail (GoObj.cons k2 v2 t2)
              = ',' :: quoteStr k2 ++ ':' :: printVal v2 ++ printObjTail t2 from rfl]
        simp [List.append_assoc]]
      rw [skipWs_not_ws ',' _ (by decide)]
      rw [show headIs ',' (',' :: (quoteStr k2
            ++ (':' :: (printVal v2 ++ (printObjTail t2 ++ '\x7d' :: rest))))) = true from rfl]
      rw [if_pos rfl]
      rw [List.tail_cons]
      rw [rtM f k2 v2 t2 rest ht.1.1 ht.1.2 hf2]

end

theorem jsonParse_wf (t : String) (v : GoVal) (h : jsonParse t = some v) : wfV v = true := by
  unfold jsonParse at h
  split at h
  · rename_i v1 rest heq
    split at h
    · cases h
      exact pw_v _ _ _ _ heq
    · cases h
  · cases h

theorem jsonParse_print (w : GoVal) (hw : wfV w = true) :
    jsonParse (goMarshal w) = some w := by
  have hfuel : sizeW w ≤ 2 * (printVal w).length + 2 := by
    have := szV w
    omega
  have h1 : parseVal (2 * (printVal w).length + 2) (printVal w) = some (w, []) := by
    have h2 := rtV (2 * (printVal w).length + 2) w [] hw trivial hfuel
    rwa [List.append_nil] at h2
  unfold jsonParse
  rw [show (goMarshal w).data = printVal w from rfl,
    show (goMarshal w).length = (printVal w).length from rfl]
  rw [h1]
  rfl

/-- C5: canonicalization is idempotent.  For every structured-field text `t`
that parses as JSON, canonicalizing the serialization of the canonicalized
tree of `t` yields exactly the tree obtained by canonicalizing `t` once:
with `v` the parse of `t`, parsing `json.Marshal(removeDefaultFields v)` and
applying `removeDefaultFields` again returns `removeDefaultFields v`. -/
theorem canonicalize_idempotent (t : String) (v : GoVal) (h : jsonParse t = some v) :
    (jsonParse (goMarshal (removeDefaultFields v))).map removeDefaultFields
      = some (removeDefaultFields v) := by
  have hwf : wfV v = true := jsonParse_wf t v h
  rw [jsonParse_print (removeDefaultFields v) (wf_rdf_v v hwf)]
  show some (removeDefaultFields (removeDefaultFields v)) = some (removeDefaultFields v)
  rw [rdf_idem_v v]

/-- Witness for C5 at the concrete text `\x7b"hidden":true\x7d`, whose
canonical tree is the empty object. -/
theorem canonicalize_idempotent_witness :
    jsonParse ("\x7b\"hidden\":true\x7d")
        = some (.obj (.cons ("hidden") (.boolV true) .nil)) ∧
    (jsonParse (goMarshal (removeDefaultFields
          (GoVal.obj (.cons ("hidden") (.boolV true) .nil))))).map removeDefaultFields
      = some (removeDefaultFields (GoVal.obj (.cons ("hidden") (.boolV true) .nil))) :=
  ⟨rfl, canonicalize_idempotent ("\x7b\"hidden\":true\x7d")
    (GoVal.obj (.cons ("hidden") (.boolV true) .nil)) rfl⟩
